import Mathlib

/-!
# Verification of the texjam scaffold execution engine

Shallow embedding of the core of the `texjam` repository:
the `TempPath` path node (`texjam/path.py`), the render pipeline and
plugin hook pipeline (`texjam/render/executor.py`), the metadata-field
model (`texjam/config/meta.py`), and the prompt step of the executor.

Conventions:
* Python `None` becomes `Option.none`; a raised exception becomes an
  `Except.error` (or an explicit error component of a returned pair).
* File-system paths are lists of path components (`List String`), as
  produced by `pathlib.PurePath.parts` relative to a root.
* Jinja2 template rendering is opaque in the engine (spec §1), so it is
  passed as a function parameter (`String → String` for a fixed
  metadata mapping).
* Python `dict` insertion-order semantics are modelled by association
  lists with insert-or-overwrite-in-place.
-/

namespace TexJam

/-! ## Values

Metadata values.  Preset data and prompt answers flow through the engine
untyped (`Any`); the engine itself only produces strings, ints, floats,
booleans, paths and lists of strings (checkbox selections).  Python
floats are abstracted to exact rationals; no claim exercises float
rounding. -/

inductive Value where
  | str (s : String)
  | int (n : Int)
  | real (q : Rat)
  | bool (b : Bool)
  | path (s : String)
  | strList (l : List String)
  deriving DecidableEq, Repr

/-- Insertion-ordered mapping from field key to resolved value
(a Python `dict[str, Any]`). -/
abbrev Metadata := List (String × Value)

/-- `d[k] = v`: Python dict assignment.  Overwrites in place if the key
exists, otherwise appends (insertion order preserved). -/
def dictInsert (d : Metadata) (k : String) (v : Value) : Metadata :=
  if d.any (fun e => e.1 = k) then
    d.map (fun e => if e.1 = k then (k, v) else e)
  else
    d ++ [(k, v)]

/-- `d.get(k)` / `k in d` lookup: first binding wins. -/
def dictLookup (d : Metadata) (k : String) : Option Value :=
  (d.find? (fun e => e.1 = k)).map Prod.snd

/-! ## Path component order

`TexJam.render` sorts the `TempPath` list with
`sorted(temp_paths, key=lambda p: p.rendered)` where `p.rendered` is a
`pathlib.Path`.  `pathlib` compares relative paths by their component
sequences, each component compared as a Python `str`, i.e. by Unicode
code points, lexicographically. -/

/-- Python `str` comparison: lexicographic by Unicode code point over
the character sequence. -/
def strLt (a b : String) : Bool := go a.data b.data where
  go : List Char → List Char → Bool
    | [], [] => false
    | [], _ :: _ => true
    | _ :: _, [] => false
    | x :: xs, y :: ys =>
      if x < y then true
      else if y < x then false
      else go xs ys

/-- Lexicographic order on component lists: the pathlib comparison used
as the sort key in `TexJam.render`. -/
def pathLe : List String → List String → Bool
  | [], _ => true
  | _ :: _, [] => false
  | x :: xs, y :: ys =>
    if strLt x y then true
    else if strLt y x then false
    else pathLe xs ys

/-! ## TempPath (`texjam/path.py`)

One planned output entry: either mapped from a source file/directory
(`raw` present, content/mode/is_dir read lazily from disk and cached) or
synthesized in memory (`raw` absent, `is_dir` mandatory).  The disk side
of a source reference is snapshotted in `RawRef`: the results the
`pathlib.Path` queries `is_dir()`, `exists()`, `stat().st_mode`,
`binaryornot.is_binary`, `read_text`/`read_bytes` would return. -/

/-- File or binary payload of an entry (`str | bytes`). -/
inductive TPContent where
  | text (s : String)
  | bin (b : List Nat)
  deriving DecidableEq, Repr

/-- Snapshot of the source file-system entry behind `TempPath.raw`. -/
structure RawRef where
  /-- path of the entry relative to the template source root -/
  parts : List String
  /-- result of `raw.exists()` -/
  existsQ : Bool
  /-- result of `raw.is_dir()` -/
  isDirQ : Bool
  /-- result of `is_binary(str(raw))` -/
  isBinaryQ : Bool
  /-- result of `raw.read_text(encoding='utf-8')` -/
  textQ : String
  /-- result of `raw.read_bytes()` -/
  bytesQ : List Nat
  /-- result of `raw.stat().st_mode` -/
  modeQ : Nat
  deriving DecidableEq, Repr

/-- Kinds of `ValueError` raised by `TempPath`. -/
inductive TPError where
  /-- `'is_dir must be provided for virtual paths.'` -/
  | isDirRequiredForVirtual
  /-- `'is_dir is not available.'` -/
  | isDirUnavailable
  /-- `'Directories do not have content.'` -/
  | dirHasNoContent
  /-- `'Content is not available.'` -/
  | contentUnavailable
  deriving DecidableEq, Repr

/-- The `TempPath` object state: constructor arguments plus the three
lazily cached private attributes `_is_dir`, `_mode`, `_content`. -/
structure TempPath where
  raw : Option RawRef
  rendered : List String
  isDirCache : Option Bool
  modeCache : Option Nat
  contentCache : Option TPContent
  deriving DecidableEq, Repr

namespace TempPath

/-- `TempPath.__init__`.  For virtual paths (`raw is None`) `is_dir`
must be given, and a virtual file with no content gets `b''`. -/
def init (raw : Option RawRef) (rendered : List String)
    (is_dir : Option Bool) (mode : Option Nat)
    (content : Option TPContent) : Except TPError TempPath :=
  match raw with
  | none =>
    match is_dir with
    | none => .error .isDirRequiredForVirtual
    | some d =>
      let content := if ¬d ∧ content = none then some (.bin []) else content
      .ok ⟨none, rendered, some d, mode, content⟩
  | some r => .ok ⟨some r, rendered, is_dir, mode, content⟩

/-- The `is_dir` property getter: cached `_is_dir` wins; else a
source-backed path queries `raw.is_dir()` and caches; else raises.
Returns the result (or error) together with the possibly updated
object. -/
def getIsDir (t : TempPath) : Except TPError Bool × TempPath :=
  match t.isDirCache with
  | some b => (.ok b, t)
  | none =>
    match t.raw with
    | some r => (.ok r.isDirQ, { t with isDirCache := some r.isDirQ })
    | none => (.error .isDirUnavailable, t)

/-- The `is_dir` property setter. -/
def setIsDir (t : TempPath) (b : Bool) : TempPath :=
  { t with isDirCache := some b }

/-- The `mode` property getter: cached `_mode` wins; else an existing
source is `stat`-ed and cached; else `None`. -/
def getMode (t : TempPath) : Option Nat × TempPath :=
  match t.modeCache with
  | some m => (some m, t)
  | none =>
    match t.raw with
    | some r =>
      if r.existsQ then (some r.modeQ, { t with modeCache := some r.modeQ })
      else (none, t)
    | none => (none, t)

/-- The `mode` property setter. -/
def setMode (t : TempPath) (m : Option Nat) : TempPath :=
  { t with modeCache := m }

/-- The `content` property getter.  First evaluates the `is_dir`
property (which may itself cache or raise); a directory never exposes
content; otherwise the cached `_content` wins, else an existing source
is read (binary sniffing decides text vs bytes) and cached, else
raises. -/
def getContent (t : TempPath) : Except TPError TPContent × TempPath :=
  match t.getIsDir with
  | (.error e, t') => (.error e, t')
  | (.ok true, t') => (.error .dirHasNoContent, t')
  | (.ok false, t') =>
    match t'.contentCache with
    | some c => (.ok c, t')
    | none =>
      match t'.raw with
      | some r =>
        if r.existsQ then
          let c : TPContent := if r.isBinaryQ then .bin r.bytesQ else .text r.textQ
          (.ok c, { t' with contentCache := some c })
        else (.error .contentUnavailable, t')
      | none => (.error .contentUnavailable, t')

/-- The `content` property setter. -/
def setContent (t : TempPath) (c : TPContent) : TempPath :=
  { t with contentCache := some c }

/-- One operation on a `TempPath` object: any property access or
assignment. -/
inductive Op where
  | readIsDir
  | writeIsDir (b : Bool)
  | readMode
  | writeMode (m : Option Nat)
  | readContent
  | writeContent (c : TPContent)
  deriving DecidableEq, Repr

/-- The state of the object after one operation (property reads may
mutate through lazy caching; errors raise before any further change). -/
def applyOp (t : TempPath) : Op → TempPath
  | .readIsDir => t.getIsDir.2
  | .writeIsDir b => t.setIsDir b
  | .readMode => t.getMode.2
  | .writeMode m => t.setMode m
  | .readContent => t.getContent.2
  | .writeContent c => t.setContent c

/-- The state after a sequence of operations. -/
def applyOps (t : TempPath) (ops : List Op) : TempPath :=
  ops.foldl applyOp t

end TempPath

/-! ## MetaField model (`texjam/config/meta.py`)

One pydantic model per field kind (`MetaStr` … `MetaSelect`), embedded
as a tagged union.  Pydantic `int` is arbitrary precision (`Int`);
Python `float` is abstracted to exact rationals.  Pydantic's default
configuration ignores unknown keys, so no unknown-key check appears
anywhere in the construction. -/

/-- A JSON / pydantic number: `int` or `float`. -/
inductive NumV where
  | int (n : Int)
  | real (q : Rat)
  deriving DecidableEq, Repr

/-- Python `int(x)` on a number: truncation toward zero. -/
def NumV.toIntTrunc : NumV → Int
  | .int n => n
  | .real q => q.num.tdiv q.den

/-- A number as a rational, for `min/max` comparisons. -/
def NumV.toRat : NumV → Rat
  | .int n => (n : Rat)
  | .real q => q

/-- `MetaStr`: pydantic field declarations with their defaults. -/
structure MetaStrData where
  prompt : Option String := none
  required : Bool := false
  default : String := ""
  min_length : Option Int := none
  max_length : Option Int := none
  deriving DecidableEq, Repr

/-- `MetaNumber`. -/
structure MetaNumberData where
  prompt : Option String := none
  required : Bool := false
  default : Option NumV := none
  min_value : Option NumV := none
  max_value : Option NumV := none
  is_integer : Bool := false
  deriving DecidableEq, Repr

/-- `MetaBool`. -/
structure MetaBoolData where
  prompt : Option String := none
  required : Bool := false
  default : Bool := false
  deriving DecidableEq, Repr

/-- `MetaPath` (`exists` is spelled `existsQ`). -/
structure MetaPathData where
  prompt : Option String := none
  required : Bool := false
  default : Option String := none
  existsQ : Bool := false
  is_dir : Bool := false
  is_file : Bool := false
  deriving DecidableEq, Repr

/-- `MetaChoice`. -/
structure MetaChoiceData where
  prompt : Option String := none
  required : Bool := false
  default : Option String := none
  choices : List String := []
  deriving DecidableEq, Repr

/-- `MetaSelectItem`. -/
structure SelectItem where
  title : String
  value : Option String := none
  default : Bool := false
  deriving DecidableEq, Repr

/-- `MetaSelect`. -/
structure MetaSelectData where
  prompt : Option String := none
  required : Bool := false
  items : List SelectItem := []
  deriving DecidableEq, Repr

/-- The tagged union of the six pydantic field models. -/
inductive MetaField where
  | str (d : MetaStrData)
  | number (d : MetaNumberData)
  | bool (d : MetaBoolData)
  | path (d : MetaPathData)
  | choice (d : MetaChoiceData)
  | select (d : MetaSelectData)
  deriving DecidableEq, Repr

/-! ### Construction (`parse_meta_field` and the pydantic validators)

Raw configuration values are JSON/YAML scalars, lists and records. -/

/-- A raw configuration value. -/
inductive RawValue where
  | null
  | str (s : String)
  | int (n : Int)
  | real (q : Rat)
  | bool (b : Bool)
  | listV (l : List RawValue)
  | dict (entries : List (String × RawValue))

/-- Field-construction failure: a `ValueError` from `parse_meta_field`
or the model validators, or a pydantic `ValidationError` from type
validation of a field value. -/
inductive ParseErr where
  /-- `ValueError(f'Unknown meta field type: {field}')` -/
  | unknownFieldType
  /-- pydantic `ValidationError` (wrong type for a declared field) -/
  | validationError (field : String)
  /-- `ValueError` raised by a `model_validator` with this message -/
  | valueError (msg : String)
  deriving DecidableEq, Repr

/-- Record entry lookup (`field.get(key)`). -/
def getEntry (d : List (String × RawValue)) (k : String) : Option RawValue :=
  (d.find? (fun e => e.1 = k)).map Prod.snd

/-- Validate an optional `str | None` pydantic field. -/
def optStrField (d : List (String × RawValue)) (k : String) :
    Except ParseErr (Option String) :=
  match getEntry d k with
  | none => .ok none
  | some .null => .ok none
  | some (.str s) => .ok (some s)
  | some _ => .error (.validationError k)

/-- Validate a `str` pydantic field with a default (not nullable). -/
def strFieldD (d : List (String × RawValue)) (k : String) (dflt : String) :
    Except ParseErr String :=
  match getEntry d k with
  | none => .ok dflt
  | some (.str s) => .ok s
  | some _ => .error (.validationError k)

/-- Validate a `bool` pydantic field with a default.  Pydantic smart
coercion additionally accepts `0`/`1` (and some string spellings, which
no configuration in scope uses). -/
def boolFieldD (d : List (String × RawValue)) (k : String) (dflt : Bool) :
    Except ParseErr Bool :=
  match getEntry d k with
  | none => .ok dflt
  | some (.bool b) => .ok b
  | some (.int 0) => .ok false
  | some (.int 1) => .ok true
  | some _ => .error (.validationError k)

/-- Validate an `int | None` pydantic field (smart coercion accepts an
integral float). -/
def optIntField (d : List (String × RawValue)) (k : String) :
    Except ParseErr (Option Int) :=
  match getEntry d k with
  | none => .ok none
  | some .null => .ok none
  | some (.int n) => .ok (some n)
  | some (.real q) => if q.den = 1 then .ok (some q.num) else .error (.validationError k)
  | some _ => .error (.validationError k)

/-- Validate a `float | int | None` pydantic field (a bool is rejected:
pydantic does not coerce bool to a number). -/
def optNumField (d : List (String × RawValue)) (k : String) :
    Except ParseErr (Option NumV) :=
  match getEntry d k with
  | none => .ok none
  | some .null => .ok none
  | some (.int n) => .ok (some (.int n))
  | some (.real q) => .ok (some (.real q))
  | some _ => .error (.validationError k)

/-- Validate a `list[str]` pydantic field value. -/
def strListOf (k : String) : List RawValue → Except ParseErr (List String)
  | [] => .ok []
  | .str s :: rest => do
    let tail ← strListOf k rest
    .ok (s :: tail)
  | _ :: _ => .error (.validationError k)

/-- `MetaStr(**field)`: field validation then the `check_min_max`
model validator. -/
def mkMetaStr (d : List (String × RawValue)) : Except ParseErr MetaField := do
  let prompt ← optStrField d "prompt"
  let required ← boolFieldD d "required" false
  let dflt ← strFieldD d "default" ""
  let min_length ← optIntField d "min_length"
  let max_length ← optIntField d "max_length"
  match min_length, max_length with
  | some lo, some hi =>
    if lo > hi then
      .error (.valueError "min_length cannot be greater than max_length.")
    else .ok ()
  | _, _ => .ok ()
  if min_length.any (fun lo => lo < 0) then
    .error (.valueError "min_length cannot be negative.")
  else if max_length.any (fun hi => hi < 0) then
    .error (.valueError "max_length cannot be negative.")
  else
    .ok (.str ⟨prompt, required, dflt, min_length, max_length⟩)

/-- `MetaNumber(**field)`: validation then `check_min_max` (bounds
consistency; under `is_integer` the bounds are truncated to ints — the
source's `try/except ValueError` around `int(...)` can never fire on a
number). -/
def mkMetaNumber (d : List (String × RawValue)) : Except ParseErr MetaField := do
  let prompt ← optStrField d "prompt"
  let required ← boolFieldD d "required" false
  let dflt ← optNumField d "default"
  let min_value ← optNumField d "min_value"
  let max_value ← optNumField d "max_value"
  let is_integer ← boolFieldD d "is_integer" false
  match min_value, max_value with
  | some lo, some hi =>
    if lo.toRat > hi.toRat then
      .error (.valueError "min_value cannot be greater than max_value.")
    else .ok ()
  | _, _ => .ok ()
  let min_value := if is_integer then min_value.map (fun v => .int v.toIntTrunc) else min_value
  let max_value := if is_integer then max_value.map (fun v => .int v.toIntTrunc) else max_value
  .ok (.number ⟨prompt, required, dflt, min_value, max_value, is_integer⟩)

/-- `MetaBool(**field)`. -/
def mkMetaBool (d : List (String × RawValue)) : Except ParseErr MetaField := do
  let prompt ← optStrField d "prompt"
  let required ← boolFieldD d "required" false
  let dflt ← boolFieldD d "default" false
  .ok (.bool ⟨prompt, required, dflt⟩)

/-- `MetaPath(**field)`: validation then `check_is_dir_file`. -/
def mkMetaPath (d : List (String × RawValue)) : Except ParseErr MetaField := do
  let prompt ← optStrField d "prompt"
  let required ← boolFieldD d "required" false
  let dflt ← optStrField d "default"
  let existsQ ← boolFieldD d "exists" false
  let is_dir ← boolFieldD d "is_dir" false
  let is_file ← boolFieldD d "is_file" false
  if ¬existsQ ∧ (is_dir ∨ is_file) then
    .error (.valueError "is_dir and is_file require exists to be True.")
  else if is_dir ∧ is_file then
    .error (.valueError "is_dir and is_file cannot both be True.")
  else
    .ok (.path ⟨prompt, required, dflt, existsQ, is_dir, is_file⟩)

/-- `MetaChoice(**field)`: `choices` is mandatory; then
`check_choices` (non-empty). -/
def mkMetaChoice (d : List (String × RawValue)) : Except ParseErr MetaField := do
  let prompt ← optStrField d "prompt"
  let required ← boolFieldD d "required" false
  let dflt ← optStrField d "default"
  let choices ←
    match getEntry d "choices" with
    | some (.listV l) => strListOf "choices" l
    | _ => .error (.validationError "choices")
  if choices.isEmpty then
    .error (.valueError "choices cannot be empty.")
  else
    .ok (.choice ⟨prompt, required, dflt, choices⟩)

/-- A `MetaSelectItem`: a bare string becomes `{'title': s}`
(`parse_string` pre-validator); a record needs `title`. -/
def mkSelectItem : RawValue → Except ParseErr SelectItem
  | .str s => .ok ⟨s, none, false⟩
  | .dict d => do
    let title ←
      match getEntry d "title" with
      | some (.str s) => Except.ok s
      | _ => Except.error (.validationError "title")
    let value ← optStrField d "value"
    let dflt ← boolFieldD d "default" false
    .ok ⟨title, value, dflt⟩
  | _ => .error (.validationError "items")

/-- `MetaSelect(**field)`: `items` is mandatory; then `check_items`
(non-empty). -/
def mkMetaSelect (d : List (String × RawValue)) : Except ParseErr MetaField := do
  let prompt ← optStrField d "prompt"
  let required ← boolFieldD d "required" false
  let items ←
    match getEntry d "items" with
    | some (.listV l) => l.mapM mkSelectItem
    | _ => .error (.validationError "items")
  if items.isEmpty then
    .error (.valueError "items cannot be empty.")
  else
    .ok (.select ⟨prompt, required, items⟩)

/-- `parse_meta_field`: dispatch on `type` for records, on the runtime
type for bare scalars.  Note the source tests `isinstance(field, int)`
before `isinstance(field, bool)` and a Python bool *is* an int, so a
bare boolean takes the number branch, where pydantic rejects a bool for
the `float | int | None` default — the `MetaBool(default=field)` branch
is unreachable. -/
def parse_meta_field : RawValue → Except ParseErr MetaField
  | .dict d =>
    match getEntry d "type" with
    | some (.str "str") => mkMetaStr d
    | some (.str "number") => mkMetaNumber d
    | some (.str "bool") => mkMetaBool d
    | some (.str "path") => mkMetaPath d
    | some (.str "choice") => mkMetaChoice d
    | some (.str "select") => mkMetaSelect d
    | _ => .error .unknownFieldType
  | .str s => .ok (.str { default := s })
  | .int n => .ok (.number { default := some (.int n), is_integer := true })
  | .real q => .ok (.number { default := some (.real q), is_integer := false })
  | .bool _ => .error (.validationError "default")
  | .listV l => do
    let choices ← strListOf "choices" l
    if choices.isEmpty then
      .error (.valueError "choices cannot be empty.")
    else
      .ok (.choice { choices := choices })
  | .null => .error .unknownFieldType

/-! ## Prompter (`texjam/config/meta.py`, class `Prompter`)

`prompt_meta_field` resolves one field interactively: build the display
prompt, render the templated default against the metadata so far, hand
a `questionary` prompt spec to the terminal, and convert the answer.
The terminal interaction is abstracted as an oracle from the displayed
prompt and prefilled default to the raw answer `questionary.prompt`
returns (`None` models an interrupt, which the source turns into
`typer.Abort`). -/

/-- Python `str.capitalize()`: first character upper-cased, the rest
lower-cased. -/
def pyCapitalize (s : String) : String :=
  match s.data with
  | [] => ""
  | c :: cs => String.mk (c.toUpper :: cs.map Char.toLower)

/-- Python `'_'` → `' '` replacement (`str.replace('_', ' ')`). -/
def underscoresToSpaces (s : String) : String :=
  String.mk (s.data.map (fun c => if c = '_' then ' ' else c))

/-- `_extra_prompt` per field kind: the constraint hint appended to the
label.  Numbers are shown via `toString`; Python `str(float)` output is
abstracted the same way (no claim inspects a float hint). -/
def extraPrompt : MetaField → Option String
  | .str d =>
    match d.min_length, d.max_length with
    | some lo, some hi => some (toString lo ++ "-" ++ toString hi ++ " characters")
    | some lo, none => some (">= " ++ toString lo ++ " characters")
    | none, some hi => some ("<= " ++ toString hi ++ " characters")
    | none, none => none
  | .number d =>
    let show1 : NumV → String := fun v =>
      match v with
      | .int n => toString n
      | .real q => toString q
    match d.min_value, d.max_value with
    | some lo, some hi => some (show1 lo ++ "-" ++ show1 hi)
    | some lo, none => some (">=" ++ show1 lo)
    | none, some hi => some ("<=" ++ show1 hi)
    | none, none => none
  | .bool _ => none
  | .path d =>
    if d.is_dir then some "dir"
    else if d.is_file then some "file"
    else if d.existsQ then some "exists"
    else none
  | .choice _ => none
  | .select _ => none

/-- The `prompt` attribute of the pydantic model (`field.prompt`). -/
def fieldPromptAttr : MetaField → Option String
  | .str d => d.prompt
  | .number d => d.prompt
  | .bool d => d.prompt
  | .path d => d.prompt
  | .choice d => d.prompt
  | .select d => d.prompt

/-- `field.prompt or name.replace('_', ' ').capitalize()` plus the
constraint hint. -/
def promptLabel (name : String) (f : MetaField) : String :=
  let base :=
    match fieldPromptAttr f with
    | some p => if p = "" then pyCapitalize (underscoresToSpaces name) else p
    | none => pyCapitalize (underscoresToSpaces name)
  match extraPrompt f with
  | some extra => base ++ " (" ++ extra ++ ")"
  | none => base

/-- The prefilled default string shown by the prompt:
`hasattr(field, 'default')` fails only on `MetaSelect`; a string
default is rendered against the metadata so far (`_render_value`, with
`or ''`); anything else goes through `str(...)` (`str(None)` really is
`'None'`).  Python float formatting is abstracted by `toString` on the
rational. -/
def defaultShown (σ : String → String) : MetaField → String
  | .str d => σ d.default
  | .number d =>
    match d.default with
    | none => "None"
    | some (.int n) => toString n
    | some (.real q) => toString q
  | .bool d => if d.default then "True" else "False"
  | .path d =>
    match d.default with
    | none => "None"
    | some s => σ s
  | .choice d =>
    match d.default with
    | none => "None"
    | some s => σ s
  | .select _ => ""

/-- Prompt-step failure. -/
inductive PromptErr where
  /-- `typer.Abort()` after `questionary.prompt` returned nothing -/
  | aborted
  /-- `_convert_answer` failed (`int`/`float`/`Path` on an unconvertible
  answer) -/
  | badAnswer
  deriving DecidableEq, Repr

/-- Python `int(s)` on the trimmed decimal spellings the engine meets. -/
def pyIntOfString (s : String) : Option Int := s.toInt?

/-- Python `float(s)` restricted to plain decimal spellings
(`[sign]digits[.digits]`); exponents and specials are not exercised by
any configuration in scope. -/
def pyFloatOfString (s : String) : Option Rat :=
  let core (t : List Char) : Option Rat :=
    match t.span (fun c => c ≠ '.') with
    | (intPart, []) =>
      if intPart ≠ [] ∧ intPart.all Char.isDigit then
        some ((String.mk intPart).toNat!.cast)
      else none
    | (intPart, _dot :: fracPart) =>
      if intPart ≠ [] ∧ intPart.all Char.isDigit ∧
          fracPart ≠ [] ∧ fracPart.all Char.isDigit then
        some ((String.mk intPart).toNat!.cast +
          ((String.mk fracPart).toNat!.cast : Rat) / ((10 : Rat) ^ fracPart.length))
      else none
  match s.data with
  | '-' :: rest => (core rest).map Neg.neg
  | '+' :: rest => core rest
  | l => core l

/-- `_convert_answer`: the base implementation returns the answer
unchanged; `MetaNumber` applies `int`/`float`; `MetaPath` wraps in
`Path`. -/
def convertAnswer (f : MetaField) (a : Value) : Except PromptErr Value :=
  match f with
  | .number d =>
    if d.is_integer then
      match a with
      | .str s =>
        (match pyIntOfString s with
          | some n => .ok (.int n)
          | none => .error .badAnswer)
      | .int n => .ok (.int n)
      | .bool b => .ok (.int (if b then 1 else 0))
      | .real q => .ok (.int (q.num.tdiv q.den))
      | _ => .error .badAnswer
    else
      match a with
      | .str s =>
        (match pyFloatOfString s with
          | some q => .ok (.real q)
          | none => .error .badAnswer)
      | .int n => .ok (.real (n : Rat))
      | .real q => .ok (.real q)
      | .bool b => .ok (.real (if b then 1 else 0))
      | _ => .error .badAnswer
  | .path _ =>
    match a with
    | .str s => .ok (.path s)
    | .path s => .ok (.path s)
    | _ => .error .badAnswer
  | _ => .ok a

/-- `Prompter.prompt_meta_field`: assemble the prompt, ask the terminal
oracle, convert.  `oracle label default = none` models
`questionary.prompt` returning nothing (interrupt), which raises
`typer.Abort`. -/
def prompt_meta_field (σ : String → String)
    (oracle : String → String → Option Value)
    (name : String) (f : MetaField) : Except PromptErr Value :=
  match oracle (promptLabel name f) (defaultShown σ f) with
  | none => .error .aborted
  | some a => convertAnswer f a

/-! ## Plugins and the executor (`texjam/render/executor.py`)

A plugin instance is modelled by its hook functions.  The hook-contract
side (`pre_prompt`, `post_prompt`, `on_paths`, `on_render`) communicates
through return values; the defaults are the base-class bodies (`pass`,
i.e. `None`).  `initialize` is modelled as a metadata transformer: the
`TexJamPlugin.metadata` property hands the plugin the executor's dict
itself (not a copy), and the bundled example plugin mutates it there
(`self.metadata['example'] = True`), so the stage must be modelled as
state-passing.  `on_paths` also reads `self.metadata`, hence its
metadata argument. -/

structure Plugin where
  /-- `cls.__name__`, used by `__init_subclass__` registration -/
  name : String := ""
  /-- `pre_prompt(name, field)`: `True` skips prompting the field -/
  prePrompt : String → MetaField → Option Bool := fun _ _ => none
  /-- `post_prompt(name, field, value)`: `True` suppresses storage -/
  postPrompt : String → MetaField → Value → Option Bool := fun _ _ _ => none
  /-- the `initialize()` hook: observes and may mutate the executor's
  metadata -/
  initHook : Metadata → Metadata := id
  /-- `on_paths(paths)`: replacement list or `None` -/
  onPaths : Metadata → List TempPath → Option (List TempPath) := fun _ _ => none
  /-- `on_render(path, rendered)`: replacement content or `None` -/
  onRender : TempPath → String → Option String := fun _ _ => none

/-- Python `name.startswith('_')`. -/
def startsWithUnderscore (s : String) : Bool :=
  match s.data with
  | [] => false
  | c :: _ => c = '_'

/-- `TexJamPlugin.__init_subclass__` over the class definitions in
definition order: every subclass whose name does not start with `'_'`
is appended to the shared `plugins` registry.  `TexJam.load_plugins`
then instantiates exactly the registered classes, in registry order, so
the loaded plugin list is this registry. -/
def registerPlugins (classes : List Plugin) : List Plugin :=
  classes.foldl
    (fun reg c => if startsWithUnderscore c.name then reg else reg ++ [c]) []

/-- The `pre_prompt` hook pass in `TexJam.prompt`: call each plugin in
load order, stop at the first returning `True` (Python `result is
True`; `False` and `None` continue the scan).  Returns the skip flag
and the plugins that were actually invoked, in order. -/
def prePromptPass (plugins : List Plugin) (name : String) (f : MetaField) :
    Bool × List Plugin :=
  match plugins with
  | [] => (false, [])
  | p :: rest =>
    if p.prePrompt name f = some true then (true, [p])
    else
      let (skip, invoked) := prePromptPass rest name f
      (skip, p :: invoked)

/-- The `post_prompt` hook pass: same short-circuit shape; `True` means
"intercept, do not store". -/
def postPromptPass (plugins : List Plugin) (name : String) (f : MetaField)
    (v : Value) : Bool × List Plugin :=
  match plugins with
  | [] => (false, [])
  | p :: rest =>
    if p.postPrompt name f v = some true then (true, [p])
    else
      let (intercept, invoked) := postPromptPass rest name f v
      (intercept, p :: invoked)

/-- Observable state of `TexJam.prompt`: the metadata built so far, the
fields handed to `Prompter.prompt_meta_field` (each one is an
interactive prompt), the `pre_prompt` invocations `(plugin, field)`,
and the pending exception (an exception aborts the whole loop). -/
structure PromptState where
  metadata : Metadata := []
  prompted : List String := []
  preTrace : List (Plugin × String) := []
  err : Option PromptErr := none

/-- The tail of one `TexJam.prompt` iteration once a value has been
resolved: run the `post_prompt` chain and store the value unless a
plugin intercepts. -/
def storeValue (plugins : List Plugin) (name : String) (field : MetaField)
    (v : Value) (st : PromptState) : PromptState :=
  if (postPromptPass plugins name field v).1 then st
  else { st with metadata := dictInsert st.metadata name v }

/-- One iteration of the `TexJam.prompt` field loop. -/
def promptStep (σ : Metadata → String → String)
    (oracle : String → String → Option Value)
    (plugins : List Plugin) (data : Option Metadata)
    (st : PromptState) (nf : String × MetaField) : PromptState :=
  if st.err.isSome then st
  else
    let name := nf.1
    let field := nf.2
    let pre := prePromptPass plugins name field
    let st := { st with preTrace := st.preTrace ++ pre.2.map (fun p => (p, name)) }
    if pre.1 then st
    else
      let fromData : Option Value :=
        match data with
        | some d => dictLookup d name
        | none => none
      match fromData with
      | some v => storeValue plugins name field v st
      | none =>
        let st := { st with prompted := st.prompted ++ [name] }
        match prompt_meta_field (σ st.metadata) oracle name field with
        | .error e => { st with err := some e }
        | .ok v => storeValue plugins name field v st

/-- `TexJam.prompt(data)`: resolve every declared field in declaration
order, starting from an empty metadata mapping. -/
def promptFields (σ : Metadata → String → String)
    (oracle : String → String → Option Value)
    (plugins : List Plugin) (data : Option Metadata)
    (meta : List (String × MetaField)) : PromptState :=
  meta.foldl (promptStep σ oracle plugins data) {}

/-! ## Render pipeline (`TexJam.render`)

The output directory's contents are a mapping from relative component
paths to entries (a directory, or a file with its content).  Permission
bits (`chmod` after creation) do not affect existence, kind or content
and are outside every claim, so the model does not track them. -/

/-- One file-system entry in the output directory. -/
inductive FSEntry where
  | dir
  | file (c : TPContent)
  deriving DecidableEq, Repr

/-- The output directory's contents: relative path → entry. -/
abbrev FS := List (List String × FSEntry)

/-- `path.exists()` relative to the output directory. -/
def fsExists (fs : FS) (p : List String) : Bool :=
  fs.any (fun e => e.1 = p)

/-- The non-empty initial segments of a path, shortest first. -/
def initSegs (p : List String) : List (List String) :=
  (List.range p.length).map (fun i => p.take (i + 1))

/-- `target.mkdir(parents=True, exist_ok=False)` after the caller
checked that `target` itself does not exist: create every missing
initial segment as a directory. -/
def fsMkdirParents (fs : FS) (p : List String) : FS :=
  (initSegs p).foldl
    (fun acc q => if fsExists acc q then acc else acc ++ [(q, .dir)]) fs

/-- `target.write_text` / `target.write_bytes`: overwrite in place or
create.  (Writing over a path that exists as a directory would raise in
Python; no claim reaches that corner — the render loop never writes a
file at a path it knows to be a directory, see the `C6` development.) -/
def fsWrite (fs : FS) (p : List String) (c : TPContent) : FS :=
  if fsExists fs p then
    fs.map (fun e => if e.1 = p then (p, .file c) else e)
  else
    fs ++ [(p, .file c)]

/-- `target.parent.exists()`: a single-component path's parent is the
output directory itself, which `render` creates up front
(`mkdir(parents=True, exist_ok=True)`). -/
def parentExists (fs : FS) (p : List String) : Bool :=
  p.dropLast.isEmpty || fsExists fs p.dropLast

/-- Failures of the materialization loop. -/
inductive RenderErr where
  /-- `TexJamScaffoldPathAlreadyExistsException(path=temp_path)` -/
  | pathAlreadyExists (tp : TempPath)
  /-- `RuntimeError(f'Parent directory … does not exist.')` -/
  | parentMissing (tp : TempPath)
  /-- a `ValueError` escaping a `TempPath` property access -/
  | valueError (e : TPError)
  deriving DecidableEq, Repr

/-- The tree walk of `TexJam.render`: for every enumerated source entry,
render each component of its path relative to the source root through
the templating engine (`σ`, closed over the metadata); skip the whole
entry if any rendered component is the empty string; otherwise wrap it
as `TempPath(raw=path, rendered=rendered_path)`. -/
def gatherTempPaths (σ : String → String) (entries : List RawRef) :
    List TempPath :=
  entries.filterMap (fun e =>
    let parts := e.parts.map σ
    if parts.contains "" then none
    else
      match TempPath.init (some e) parts none none none with
      | .ok tp => some tp
      | .error _ => none)

/-- The `on_paths` chain: first non-`None` return replaces the working
list for the plugins after it. -/
def onPathsChain (plugins : List Plugin) (md : Metadata)
    (tps : List TempPath) : List TempPath :=
  plugins.foldl
    (fun acc p =>
      match p.onPaths md acc with
      | some l => l
      | none => acc) tps

/-- The `on_render` chain over one file's rendered content. -/
def onRenderChain (plugins : List Plugin) (tp : TempPath) (content : String) :
    String :=
  plugins.foldl
    (fun c p =>
      match p.onRender tp c with
      | some m => m
      | none => c) content

/-- `sorted(temp_paths, key=lambda p: p.rendered)`: sort key order. -/
def tpLe (a b : TempPath) : Prop := pathLe a.rendered b.rendered = true

instance : DecidableRel tpLe := fun a b =>
  inferInstanceAs (Decidable (pathLe a.rendered b.rendered = true))

/-- The materialization order: the final `TempPath` list sorted by
rendered path (`sorted` is a stable comparison sort; any sort producing
a `tpLe`-sorted permutation has the ordering properties the claims
state, and insertion sort is such a sort). -/
def sortPaths (ps : List TempPath) : List TempPath :=
  ps.insertionSort tpLe

/-- One iteration of the creation loop: run `pre_create` (observers),
create the directory or write the (rendered, hook-chained) file
content, run `post_create` (observers).  Returns the updated
file-system contents and the exception, if one was raised. -/
def materializeStep (σ : String → String) (plugins : List Plugin)
    (fs : FS) (tp : TempPath) : FS × Option RenderErr :=
  match tp.getIsDir with
  | (.error e, _) => (fs, some (.valueError e))
  | (.ok true, _) =>
    if fsExists fs tp.rendered then
      (fs, some (.pathAlreadyExists tp))
    else
      (fsMkdirParents fs tp.rendered, none)
  | (.ok false, tp1) =>
    if ¬ parentExists fs tp.rendered then
      (fs, some (.parentMissing tp))
    else
      match tp1.getContent with
      | (.error e, _) => (fs, some (.valueError e))
      | (.ok (.text s), _) =>
        (fsWrite fs tp.rendered (.text (onRenderChain plugins tp (σ s))), none)
      | (.ok (.bin b), _) =>
        (fsWrite fs tp.rendered (.bin b), none)

/-- The creation loop over the sorted list; an exception aborts it,
leaving everything already written on disk. -/
def materializeAll (σ : String → String) (plugins : List Plugin) :
    FS → List TempPath → FS × Option RenderErr
  | fs, [] => (fs, none)
  | fs, tp :: rest =>
    match materializeStep σ plugins fs tp with
    | (fs1, none) => materializeAll σ plugins fs1 rest
    | (fs1, some e) => (fs1, some e)

/-- The `initialize` hook stage at the top of `TexJam.render`: each
plugin runs against the shared metadata mapping in load order. -/
def runInitStage (plugins : List Plugin) (md : Metadata) : Metadata :=
  plugins.foldl (fun m p => p.initHook m) md

/-- Result of one `TexJam.render` run. -/
structure RenderResult where
  fs : FS
  err : Option RenderErr
  metadata : Metadata

/-- `TexJam.render`: initialize plugins, walk and render the source
tree, let `on_paths` rewrite the list, then create everything in sorted
order.  `σ` is the templating engine applied under a given metadata
mapping; `fs0` is what the output directory already contains. -/
def renderRun (σ : Metadata → String → String) (plugins : List Plugin)
    (entries : List RawRef) (md0 : Metadata) (fs0 : FS) : RenderResult :=
  let md := runInitStage plugins md0
  let tps := gatherTempPaths (σ md) entries
  let tps := onPathsChain plugins md tps
  let (fs, err) := materializeAll (σ md) plugins fs0 (sortPaths tps)
  ⟨fs, err, md⟩

/-! ## The bundled example plugins (`src/example/plugins/plugin.py`)

`ExamplePlugin.initialize` writes `self.metadata['example'] = True`
directly into the executor's mapping.  Its `on_paths` hook appends a
synthetic `TempPath(rendered=Path(slug, 'path.txt'), is_dir=False,
content='')` where `slug` is read from the shared metadata, and
`on_render` appends a banner.  (`finalize` touches a file outside the
managed `TempPath` list and `on_paths` raises `KeyError` when `slug` is
missing; neither behaviour is reached by any claim, so `on_paths` is
modelled for the case the hook supports — a present string `slug` — and
`finalize` is not modelled.) -/

/-- The string component `self.metadata['slug']` used by the example
plugin's hooks. -/
def slugOf (md : Metadata) : String :=
  match dictLookup md "slug" with
  | some (.str s) => s
  | _ => ""

/-- `ExamplePlugin`. -/
def examplePlugin : Plugin where
  name := "ExamplePlugin"
  initHook := fun md => dictInsert md "example" (.bool true)
  onPaths := fun md paths =>
    some (paths ++ [⟨none, [slugOf md, "path.txt"], some false, none,
      some (.text "")⟩])
  onRender := fun _ rendered =>
    some (rendered ++ "\n<!-- Rendered by ExamplePlugin -->\n")

/-- `_IgnoredPlugin`: its name starts with an underscore, so
`__init_subclass__` never registers it; its `on_paths` override raises
`NotImplementedError`, which the model never has to represent because
the hook is never reached. -/
def ignoredPlugin : Plugin where
  name := "_IgnoredPlugin"

/-- Strict version of the path order (used to split the sorted list
around a target path). -/
def pathLtB (a b : List String) : Bool :=
  pathLe a b && !(decide (a = b))

/-- The slice of the output contents at or below a path: the entry at
`d` itself and everything inside it. -/
def fsAtOrUnder (fs : FS) (d : List String) : FS :=
  fs.filter (fun e => d.isPrefixOf e.1)

/-- The C8 scenario run of the prompt step. -/
def scenario1Run : PromptState :=
  promptFields (fun _ s => s) (fun _ d => some (.str d)) []
    (some [("project_name", Value.str "demo")])
    [("project_name", MetaField.str { required := true }),
     ("version", MetaField.str { default := "0.1.0" })]

/-! ## Order lemmas for the path comparison -/

theorem strLt_go_irrefl (l : List Char) : strLt.go l l = false := by
  induction l with
  | nil => rfl
  | cons x xs ih => simp [strLt.go, lt_irrefl, ih]

theorem strLt_go_asymm {a b : List Char} (h : strLt.go a b = true) :
    strLt.go b a = false := by
  induction a generalizing b with
  | nil =>
    cases b with
    | nil => simp [strLt.go] at h
    | cons y ys => rfl
  | cons x xs ih =>
    cases b with
    | nil => simp [strLt.go] at h
    | cons y ys =>
      rcases lt_trichotomy x y with hxy | hxy | hxy
      · simp [strLt.go, hxy, asymm hxy]
      · subst hxy
        simp only [strLt.go, lt_irrefl, if_false] at h ⊢
        exact ih h
      · simp [strLt.go, hxy, asymm hxy] at h

theorem strLt_go_trans {a b c : List Char} (hab : strLt.go a b = true)
    (hbc : strLt.go b c = true) : strLt.go a c = true := by
  induction a generalizing b c with
  | nil =>
    cases b with
    | nil => simp [strLt.go] at hab
    | cons y ys =>
      cases c with
      | nil => simp [strLt.go] at hbc
      | cons z zs => rfl
  | cons x xs ih =>
    cases b with
    | nil => simp [strLt.go] at hab
    | cons y ys =>
      cases c with
      | nil => simp [strLt.go] at hbc
      | cons z zs =>
        rcases lt_trichotomy x y with hxy | hxy | hxy
        · rcases lt_trichotomy y z with hyz | hyz | hyz
          · simp [strLt.go, lt_trans hxy hyz]
          · subst hyz; simp [strLt.go, hxy]
          · simp [strLt.go, hyz, asymm hyz] at hbc
        · subst hxy
          rcases lt_trichotomy x z with hxz | hxz | hxz
          · simp [strLt.go, hxz]
          · subst hxz
            simp only [strLt.go, lt_irrefl, if_false] at hab hbc ⊢
            exact ih hab hbc
          · simp [strLt.go, hxz, asymm hxz] at hbc
        · simp [strLt.go, hxy, asymm hxy] at hab

theorem strLt_go_eq {a b : List Char} (hab : strLt.go a b = false)
    (hba : strLt.go b a = false) : a = b := by
  induction a generalizing b with
  | nil =>
    cases b with
    | nil => rfl
    | cons y ys => simp [strLt.go] at hab
  | cons x xs ih =>
    cases b with
    | nil => simp [strLt.go] at hba
    | cons y ys =>
      rcases lt_trichotomy x y with hxy | hxy | hxy
      · simp [strLt.go, hxy] at hab
      · subst hxy
        simp only [strLt.go, lt_irrefl, if_false] at hab hba
        exact congrArg (x :: ·) (ih hab hba)
      · simp [strLt.go, hxy] at hba

theorem strLt_irrefl (a : String) : strLt a a = false := strLt_go_irrefl a.data

theorem strLt_asymm {a b : String} (h : strLt a b = true) :
    strLt b a = false := strLt_go_asymm h

theorem strLt_trans {a b c : String} (hab : strLt a b = true)
    (hbc : strLt b c = true) : strLt a c = true := strLt_go_trans hab hbc

theorem strLt_eq {a b : String} (hab : strLt a b = false)
    (hba : strLt b a = false) : a = b := by
  cases a; cases b
  exact congrArg String.mk (strLt_go_eq hab hba)

theorem pathLe_refl (a : List String) : pathLe a a = true := by
  induction a with
  | nil => rfl
  | cons x xs ih => simp [pathLe, strLt_irrefl, ih]

theorem pathLe_total (a b : List String) :
    pathLe a b = true ∨ pathLe b a = true := by
  induction a generalizing b with
  | nil => left; rfl
  | cons x xs ih =>
    cases b with
    | nil => right; rfl
    | cons y ys =>
      cases hxy : strLt x y with
      | true => left; simp [pathLe, hxy]
      | false =>
        cases hyx : strLt y x with
        | true => right; simp [pathLe, hyx]
        | false =>
          rcases ih ys with h' | h'
          · left; simp [pathLe, hxy, hyx, h']
          · right; simp [pathLe, hxy, hyx, h']

theorem pathLe_antisymm {a b : List String}
    (hab : pathLe a b = true) (hba : pathLe b a = true) : a = b := by
  induction a generalizing b with
  | nil =>
    cases b with
    | nil => rfl
    | cons y ys => simp [pathLe] at hba
  | cons x xs ih =>
    cases b with
    | nil => simp [pathLe] at hab
    | cons y ys =>
      cases hxy : strLt x y with
      | true => simp [pathLe, hxy, strLt_asymm hxy] at hba
      | false =>
        cases hyx : strLt y x with
        | true => simp [pathLe, hxy, hyx] at hab
        | false =>
          simp only [pathLe, hxy, hyx, if_false] at hab hba
          rw [strLt_eq hxy hyx]
          exact congrArg (y :: ·) (ih hab hba)

theorem pathLe_trans {a b c : List String}
    (hab : pathLe a b = true) (hbc : pathLe b c = true) :
    pathLe a c = true := by
  induction a generalizing b c with
  | nil => rfl
  | cons x xs ih =>
    cases b with
    | nil => simp [pathLe] at hab
    | cons y ys =>
      cases c with
      | nil => simp [pathLe] at hbc
      | cons z zs =>
        cases hxy : strLt x y with
        | true =>
          cases hyz : strLt y z with
          | true => simp [pathLe, strLt_trans hxy hyz]
          | false =>
            cases hzy : strLt z y with
            | true => simp [pathLe, hzy, strLt_asymm hzy] at hbc
            | false =>
              have : y = z := strLt_eq hyz hzy
              subst this
              simp [pathLe, hxy]
        | false =>
          cases hyx : strLt y x with
          | true => simp [pathLe, hxy, hyx] at hab
          | false =>
            have : x = y := strLt_eq hxy hyx
            subst this
            simp only [pathLe, hxy, if_false] at hab
            cases hxz : strLt x z with
            | true => simp [pathLe, hxz]
            | false =>
              cases hzx : strLt z x with
              | true => simp [pathLe, hzx, strLt_asymm hzx] at hbc
              | false =>
                have : x = z := strLt_eq hxz hzx
                subst this
                simp only [pathLe, hxz, if_false] at hbc ⊢
                exact ih hab hbc

/-- A strict prefix of a path sorts strictly before the path:
`pathLe` of the extension back to the proper initial segment fails. -/
theorem pathLe_eq_false_of_strict_initial {a b : List String}
    (hpre : a <+: b) (hne : a ≠ b) : pathLe b a = false := by
  induction a generalizing b with
  | nil =>
    cases b with
    | nil => exact absurd rfl hne
    | cons y ys => rfl
  | cons x xs ih =>
    cases b with
    | nil =>
      rcases hpre with ⟨t, ht⟩
      simp at ht
    | cons y ys =>
      rcases hpre with ⟨t, ht⟩
      injection ht with h1 h2
      subst h1
      have hpre' : xs <+: ys := ⟨t, h2⟩
      have hne' : xs ≠ ys := by
        intro h; exact hne (by rw [h])
      simp [pathLe, strLt_irrefl, ih hpre' hne']

/-- `pathLe` holds from an initial segment to its extension. -/
theorem pathLe_of_initial {a b : List String} (hpre : a <+: b) :
    pathLe a b = true := by
  induction a generalizing b with
  | nil => rfl
  | cons x xs ih =>
    cases b with
    | nil =>
      rcases hpre with ⟨t, ht⟩
      simp at ht
    | cons y ys =>
      rcases hpre with ⟨t, ht⟩
      injection ht with h1 h2
      subst h1
      simp [pathLe, strLt_irrefl, ih ⟨t, h2⟩]

/-! ## Dictionary lemmas -/

theorem dictLookup_nil (k : String) : dictLookup [] k = none := rfl

theorem dictLookup_cons (e : String × Value) (d : Metadata) (k : String) :
    dictLookup (e :: d) k = if e.1 = k then some e.2 else dictLookup d k := by
  by_cases he : e.1 = k <;>
    simp [dictLookup, List.find?_cons_of_pos, List.find?_cons_of_neg, he]

theorem dictLookup_map_replace_self (d : Metadata) (k : String) (v : Value)
    (h : d.any (fun e => e.1 = k) = true) :
    dictLookup (d.map (fun e => if e.1 = k then (k, v) else e)) k = some v := by
  induction d with
  | nil => simp at h
  | cons e rest ih =>
    by_cases he : e.1 = k
    · simp [he, dictLookup_cons]
    · rw [List.any_cons] at h
      have h2 : rest.any (fun e => e.1 = k) = true := by
        rcases Bool.or_eq_true_iff.mp h with h1 | h1
        · exact absurd (of_decide_eq_true h1) he
        · exact h1
      simp [he, dictLookup_cons, ih h2]

theorem dictLookup_append_self (d : Metadata) (k : String) (v : Value)
    (h : d.any (fun e => e.1 = k) = false) :
    dictLookup (d ++ [(k, v)]) k = some v := by
  induction d with
  | nil => simp [dictLookup_cons, dictLookup_nil]
  | cons e rest ih =>
    rw [List.any_cons] at h
    rcases Bool.or_eq_false_iff.mp h with ⟨h1, h2⟩
    have he : e.1 ≠ k := by simpa using h1
    simp [dictLookup_cons, he, ih h2]

theorem dictLookup_dictInsert_self (d : Metadata) (k : String) (v : Value) :
    dictLookup (dictInsert d k v) k = some v := by
  unfold dictInsert
  by_cases h : d.any (fun e => e.1 = k) = true
  · simp only [h, if_true]
    exact dictLookup_map_replace_self d k v h
  · simp only [h, if_false]
    exact dictLookup_append_self d k v (Bool.eq_false_iff.mpr h)

theorem dictLookup_map_replace_ne (d : Metadata) {k k' : String} (v : Value)
    (hne : k' ≠ k) :
    dictLookup (d.map (fun e => if e.1 = k' then (k', v) else e)) k
      = dictLookup d k := by
  induction d with
  | nil => rfl
  | cons e rest ih =>
    by_cases he : e.1 = k'
    · have h1 : e.1 ≠ k := by rw [he]; exact hne
      simp [he, dictLookup_cons, hne, h1, ih]
    · have hkk : k ≠ k' := Ne.symm hne
      by_cases hek : e.1 = k
      · simp [he, dictLookup_cons, hek, hkk]
      · simp [he, dictLookup_cons, hek, ih]

theorem dictLookup_append_ne (d : Metadata) {k k' : String} (v : Value)
    (hne : k' ≠ k) :
    dictLookup (d ++ [(k', v)]) k = dictLookup d k := by
  induction d with
  | nil => simp [dictLookup_cons, dictLookup_nil, hne]
  | cons e rest ih =>
    by_cases hek : e.1 = k
    · simp [dictLookup_cons, hek]
    · simp [dictLookup_cons, hek, ih]

theorem dictLookup_dictInsert_ne (d : Metadata) {k k' : String} (v : Value)
    (hne : k' ≠ k) :
    dictLookup (dictInsert d k' v) k = dictLookup d k := by
  unfold dictInsert
  by_cases h : d.any (fun e => e.1 = k') = true
  · simp only [h, if_true]
    exact dictLookup_map_replace_ne d v hne
  · simp only [h, if_false]
    exact dictLookup_append_ne d v hne

/-! ## Hook pass lemmas -/

theorem prePromptPass_skip_iff (plugins : List Plugin) (n : String)
    (f : MetaField) :
    (prePromptPass plugins n f).1 = true
      ↔ ∃ p ∈ plugins, p.prePrompt n f = some true := by
  induction plugins with
  | nil => simp [prePromptPass]
  | cons p rest ih =>
    by_cases hp : p.prePrompt n f = some true
    · simp [prePromptPass, hp]
    · simp [prePromptPass, hp, ih]

theorem prePromptPass_invoked_mem {plugins : List Plugin} {n : String}
    {f : MetaField} {q : Plugin}
    (hq : q ∈ (prePromptPass plugins n f).2) : q ∈ plugins := by
  induction plugins with
  | nil => simp [prePromptPass] at hq
  | cons p rest ih =>
    by_cases hp : p.prePrompt n f = some true
    · simp [prePromptPass, hp] at hq
      simp [hq]
    · simp only [prePromptPass, hp, if_false] at hq
      rcases List.mem_cons.mp hq with h | h
      · simp [h]
      · exact List.mem_cons_of_mem p (ih h)

theorem prePromptPass_decomp {plugins : List Plugin} {n : String}
    {f : MetaField} {p : Plugin} (hp : p ∈ plugins)
    (hskip : p.prePrompt n f = some true) :
    ∃ l₁ q l₂, plugins = l₁ ++ q :: l₂
      ∧ (∀ r ∈ l₁, r.prePrompt n f ≠ some true)
      ∧ q.prePrompt n f = some true
      ∧ prePromptPass plugins n f = (true, l₁ ++ [q]) := by
  induction plugins with
  | nil => simp at hp
  | cons r rest ih =>
    by_cases hr : r.prePrompt n f = some true
    · exact ⟨[], r, rest, by simp, by simp, hr, by simp [prePromptPass, hr]⟩
    · have hp' : p ∈ rest := by
        rcases List.mem_cons.mp hp with h | h
        · exact absurd (h ▸ hskip) hr
        · exact h
      rcases ih hp' with ⟨l₁, q, l₂, hsplit, hl₁, hq, hpass⟩
      refine ⟨r :: l₁, q, l₂, by simp [hsplit], ?_, hq, ?_⟩
      · intro x hx
        rcases List.mem_cons.mp hx with h | h
        · exact h ▸ hr
        · exact hl₁ x h
      · simp [prePromptPass, hr, hpass]

theorem postPromptPass_intercept_iff (plugins : List Plugin) (n : String)
    (f : MetaField) (v : Value) :
    (postPromptPass plugins n f v).1 = true
      ↔ ∃ p ∈ plugins, p.postPrompt n f v = some true := by
  induction plugins with
  | nil => simp [postPromptPass]
  | cons p rest ih =>
    by_cases hp : p.postPrompt n f v = some true
    · simp [postPromptPass, hp]
    · simp [postPromptPass, hp, ih]

/-! ## Prompt loop lemmas -/

theorem promptStep_frozen (σ : Metadata → String → String)
    (oracle : String → String → Option Value) (plugins : List Plugin)
    (data : Option Metadata) (st : PromptState) (nf : String × MetaField)
    (h : st.err.isSome) :
    promptStep σ oracle plugins data st nf = st := by
  simp [promptStep, h]

theorem promptFold_frozen (σ : Metadata → String → String)
    (oracle : String → String → Option Value) (plugins : List Plugin)
    (data : Option Metadata) (meta : List (String × MetaField))
    (st : PromptState) (h : st.err.isSome) :
    meta.foldl (promptStep σ oracle plugins data) st = st := by
  induction meta with
  | nil => rfl
  | cons nf rest ih =>
    simp [List.foldl_cons, promptStep_frozen _ _ _ _ _ _ h, ih]

theorem promptStep_err_of_err_none {σ : Metadata → String → String}
    {oracle : String → String → Option Value} {plugins : List Plugin}
    {data : Option Metadata} {st : PromptState} {nf : String × MetaField}
    (h : (promptStep σ oracle plugins data st nf).err = none) :
    st.err = none := by
  by_cases hs : st.err.isSome
  · rw [promptStep_frozen _ _ _ _ _ _ hs] at h
    exact h
  · exact Option.not_isSome_iff_eq_none.mp hs

theorem promptFold_err_of_err_none {σ : Metadata → String → String}
    {oracle : String → String → Option Value} {plugins : List Plugin}
    {data : Option Metadata} {meta : List (String × MetaField)}
    {st : PromptState}
    (h : (meta.foldl (promptStep σ oracle plugins data) st).err = none) :
    st.err = none := by
  induction meta generalizing st with
  | nil => exact h
  | cons nf rest ih =>
    rw [List.foldl_cons] at h
    exact promptStep_err_of_err_none (ih h)

theorem promptStep_lookup_ne (σ : Metadata → String → String)
    (oracle : String → String → Option Value) (plugins : List Plugin)
    (data : Option Metadata) (st : PromptState) (nf : String × MetaField)
    {k : String} (hne : nf.1 ≠ k) :
    dictLookup (promptStep σ oracle plugins data st nf).metadata k
      = dictLookup st.metadata k := by
  by_cases herr : st.err.isSome
  · rw [promptStep_frozen _ _ _ _ _ _ herr]
  · rcases hpre : prePromptPass plugins nf.1 nf.2 with ⟨s, inv⟩
    simp only [promptStep, herr, if_false, hpre]
    cases s with
    | true => simp
    | false =>
      simp only [Bool.false_eq_true, if_false]
      cases hdat : (match data with
          | some d => dictLookup d nf.1
          | none => none : Option Value) with
      | some v =>
        simp only [hdat, storeValue]
        by_cases hint : (postPromptPass plugins nf.1 nf.2 v).1
        · simp [hint]
        · simp [hint, dictLookup_dictInsert_ne _ _ hne]
      | none =>
        simp only [hdat]
        cases hpr : prompt_meta_field (σ st.metadata) oracle nf.1 nf.2 with
        | error e => simp [hpr]
        | ok v =>
          simp only [hpr, storeValue]
          by_cases hint : (postPromptPass plugins nf.1 nf.2 v).1
          · simp [hint]
          · simp [hint, dictLookup_dictInsert_ne _ _ hne]

theorem promptStep_prompted_ne (σ : Metadata → String → String)
    (oracle : String → String → Option Value) (plugins : List Plugin)
    (data : Option Metadata) (st : PromptState) (nf : String × MetaField)
    {k : String} (hne : nf.1 ≠ k) (hk : k ∉ st.prompted) :
    k ∉ (promptStep σ oracle plugins data st nf).prompted := by
  by_cases herr : st.err.isSome
  · rw [promptStep_frozen _ _ _ _ _ _ herr]; exact hk
  · rcases hpre : prePromptPass plugins nf.1 nf.2 with ⟨s, inv⟩
    simp only [promptStep, herr, if_false, hpre]
    cases s with
    | true => simpa using hk
    | false =>
      simp only [Bool.false_eq_true, if_false]
      cases hdat : (match data with
          | some d => dictLookup d nf.1
          | none => none : Option Value) with
      | some v =>
        simp only [hdat, storeValue]
        by_cases hint : (postPromptPass plugins nf.1 nf.2 v).1
        · simpa [hint] using hk
        · simpa [hint] using hk
      | none =>
        simp only [hdat]
        cases hpr : prompt_meta_field (σ st.metadata) oracle nf.1 nf.2 with
        | error e =>
          simp only [hpr]
          simp [List.mem_append, hk, Ne.symm hne]
        | ok v =>
          simp only [hpr, storeValue]
          by_cases hint : (postPromptPass plugins nf.1 nf.2 v).1
          · simp [hint, List.mem_append, hk, Ne.symm hne]
          · simp [hint, List.mem_append, hk, Ne.symm hne]

theorem promptStep_prompted_data (σ : Metadata → String → String)
    (oracle : String → String → Option Value) (plugins : List Plugin)
    (d : Metadata) (st : PromptState) (nf : String × MetaField)
    {v : Value} (hv : dictLookup d nf.1 = some v) :
    (promptStep σ oracle plugins (some d) st nf).prompted = st.prompted := by
  by_cases herr : st.err.isSome
  · rw [promptStep_frozen _ _ _ _ _ _ herr]
  · rcases hpre : prePromptPass plugins nf.1 nf.2 with ⟨s, inv⟩
    simp only [promptStep, herr, if_false, hpre]
    cases s with
    | true => simp
    | false =>
      simp only [Bool.false_eq_true, if_false, hv, storeValue]
      by_cases hint : (postPromptPass plugins nf.1 nf.2 v).1
      · simp [hint]
      · simp [hint]

theorem promptStep_skip (σ : Metadata → String → String)
    (oracle : String → String → Option Value) (plugins : List Plugin)
    (data : Option Metadata) (st : PromptState) (nf : String × MetaField)
    (hskip : (prePromptPass plugins nf.1 nf.2).1 = true) :
    (promptStep σ oracle plugins data st nf).metadata = st.metadata
      ∧ (promptStep σ oracle plugins data st nf).prompted = st.prompted
      ∧ (promptStep σ oracle plugins data st nf).err = st.err := by
  by_cases herr : st.err.isSome
  · rw [promptStep_frozen _ _ _ _ _ _ herr]; exact ⟨rfl, rfl, rfl⟩
  · rcases hpre : prePromptPass plugins nf.1 nf.2 with ⟨s, inv⟩
    rw [hpre] at hskip
    simp only at hskip
    subst hskip
    simp [promptStep, herr, hpre]

theorem promptStep_store (σ : Metadata → String → String)
    (oracle : String → String → Option Value) (plugins : List Plugin)
    (d : Metadata) (st : PromptState) (k : String) (f : MetaField)
    {v : Value}
    (herr : st.err = none)
    (hskip : (prePromptPass plugins k f).1 = false)
    (hv : dictLookup d k = some v)
    (hint : (postPromptPass plugins k f v).1 = false) :
    (promptStep σ oracle plugins (some d) st (k, f)).metadata
        = dictInsert st.metadata k v
      ∧ (promptStep σ oracle plugins (some d) st (k, f)).prompted
        = st.prompted
      ∧ (promptStep σ oracle plugins (some d) st (k, f)).err = none := by
  have herr' : ¬ st.err.isSome := by simp [herr]
  rcases hpre : prePromptPass plugins k f with ⟨s, inv⟩
  rw [hpre] at hskip
  simp only at hskip
  subst hskip
  simp [promptStep, herr', hpre, hv, storeValue, hint, herr]

theorem promptFold_lookup_ne (σ : Metadata → String → String)
    (oracle : String → String → Option Value) (plugins : List Plugin)
    (data : Option Metadata) (meta : List (String × MetaField))
    (st : PromptState) {k : String} (hmeta : ∀ e ∈ meta, e.1 ≠ k) :
    dictLookup (meta.foldl (promptStep σ oracle plugins data) st).metadata k
      = dictLookup st.metadata k := by
  induction meta generalizing st with
  | nil => rfl
  | cons nf rest ih =>
    rw [List.foldl_cons,
      ih _ (fun e he => hmeta e (List.mem_cons_of_mem nf he)),
      promptStep_lookup_ne σ oracle plugins data st nf
        (hmeta nf (List.mem_cons_self nf rest))]

theorem promptFold_prompted_ne (σ : Metadata → String → String)
    (oracle : String → String → Option Value) (plugins : List Plugin)
    (data : Option Metadata) (meta : List (String × MetaField))
    (st : PromptState) {k : String} (hmeta : ∀ e ∈ meta, e.1 ≠ k)
    (hk : k ∉ st.prompted) :
    k ∉ (meta.foldl (promptStep σ oracle plugins data) st).prompted := by
  induction meta generalizing st with
  | nil => exact hk
  | cons nf rest ih =>
    rw [List.foldl_cons]
    exact ih _ (fun e he => hmeta e (List.mem_cons_of_mem nf he))
      (promptStep_prompted_ne σ oracle plugins data st nf
        (hmeta nf (List.mem_cons_self nf rest)) hk)

theorem promptFold_prompted_data (σ : Metadata → String → String)
    (oracle : String → String → Option Value) (plugins : List Plugin)
    (d : Metadata) (meta : List (String × MetaField))
    (st : PromptState) {k : String} {v : Value}
    (hv : dictLookup d k = some v) (hk : k ∉ st.prompted) :
    k ∉ (meta.foldl (promptStep σ oracle plugins (some d)) st).prompted := by
  induction meta generalizing st with
  | nil => exact hk
  | cons nf rest ih =>
    rw [List.foldl_cons]
    by_cases hne : nf.1 = k
    · refine ih _ ?_
      rw [promptStep_prompted_data σ oracle plugins d st nf (hne ▸ hv)]
      exact hk
    · exact ih _ (promptStep_prompted_ne σ oracle plugins (some d) st nf hne hk)

/-! ## Claim C2 -/

/-- C2, amended.  For every metadata field whose key is present in the
pre-supplied data mapping passed to the prompt step, no interactive
prompt is ever issued for that field; and provided no `pre_prompt` hook
signals a skip for the field, no `post_prompt` hook intercepts storage
of the value, and the run is not aborted, the field is resolved to the
pre-supplied value verbatim — stored untouched, with no type coercion
and no constraint validation (`v` ranges over arbitrary values). -/
theorem C2_preset_data_verbatim
    (σ : Metadata → String → String) (oracle : String → String → Option Value)
    (plugins : List Plugin) (d : Metadata)
    (meta : List (String × MetaField)) (name : String) (field : MetaField)
    (v : Value)
    (hmem : (name, field) ∈ meta)
    (hnodup : (meta.map Prod.fst).Nodup)
    (hdata : dictLookup d name = some v) :
    name ∉ (promptFields σ oracle plugins (some d) meta).prompted
    ∧ ((∀ p ∈ plugins, p.prePrompt name field ≠ some true)
       → (∀ p ∈ plugins, p.postPrompt name field v ≠ some true)
       → (promptFields σ oracle plugins (some d) meta).err = none
       → dictLookup (promptFields σ oracle plugins (some d) meta).metadata name
           = some v) := by
  constructor
  · exact promptFold_prompted_data σ oracle plugins d meta {} hdata (by simp)
  · intro hnoskip hnoint herr
    rcases List.append_of_mem hmem with ⟨l₁, l₂, hsplit⟩
    subst hsplit
    rw [List.map_append, List.map_cons] at hnodup
    have hdisj := List.disjoint_of_nodup_append hnodup
    have hr := hnodup.of_append_right
    have h1 : ∀ e ∈ l₁, e.1 ≠ name := by
      intro e he heq
      have hm : e.1 ∈ l₁.map Prod.fst := List.mem_map_of_mem Prod.fst he
      exact hdisj hm (by simp [heq])
    have h2 : ∀ e ∈ l₂, e.1 ≠ name := by
      intro e he heq
      have hm : e.1 ∈ l₂.map Prod.fst := List.mem_map_of_mem Prod.fst he
      rw [heq] at hm
      exact (List.nodup_cons.mp hr).1 hm
    have hskipF : (prePromptPass plugins name field).1 = false := by
      cases hsf : (prePromptPass plugins name field).1 with
      | false => rfl
      | true =>
        rcases (prePromptPass_skip_iff plugins name field).mp hsf with ⟨p, hp, hp2⟩
        exact absurd hp2 (hnoskip p hp)
    have hintF : (postPromptPass plugins name field v).1 = false := by
      cases hsf : (postPromptPass plugins name field v).1 with
      | false => rfl
      | true =>
        rcases (postPromptPass_intercept_iff plugins name field v).mp hsf with
          ⟨p, hp, hp2⟩
        exact absurd hp2 (hnoint p hp)
    unfold promptFields at herr ⊢
    rw [List.foldl_append, List.foldl_cons] at herr ⊢
    have herr2 := promptFold_err_of_err_none herr
    have herr1 : (List.foldl (promptStep σ oracle plugins (some d)) {} l₁).err
        = none := promptStep_err_of_err_none herr2
    rw [promptFold_lookup_ne σ oracle plugins (some d) l₂ _ h2]
    rw [(promptStep_store σ oracle plugins d _ name field herr1 hskipF hdata
      hintF).1]
    exact dictLookup_dictInsert_self _ name v

/-- C2, counterexample to the claim as stated: with a plugin whose
`pre_prompt` hook skips the field, a field whose key is present in the
pre-supplied data is *not* resolved to that value — the run ends with
the key absent from the metadata mapping. -/
theorem C2_counterexample :
    dictLookup [("k", Value.str "v")] "k" = some (Value.str "v")
    ∧ dictLookup
        (promptFields (fun _ s => s) (fun _ d => some (.str d))
          [{ name := "SkipAll", prePrompt := fun _ _ => some true }]
          (some [("k", Value.str "v")])
          [("k", MetaField.str {})]).metadata "k" = none := by
  constructor
  · rfl
  · rfl

/-- C2 witness: the amended theorem applied to the concrete scenario of
one string field `k` preset to `"v"`, with no plugins. -/
theorem C2_preset_data_verbatim_witness :
    "k" ∉ (promptFields (fun _ s => s) (fun _ d => some (.str d)) []
        (some [("k", Value.str "v")]) [("k", MetaField.str {})]).prompted
    ∧ dictLookup
        (promptFields (fun _ s => s) (fun _ d => some (.str d)) []
          (some [("k", Value.str "v")]) [("k", MetaField.str {})]).metadata "k"
        = some (Value.str "v") := by
  have h := C2_preset_data_verbatim (fun _ s => s) (fun _ d => some (.str d))
    [] [("k", Value.str "v")] [("k", MetaField.str {})] "k" (MetaField.str {})
    (Value.str "v") (by simp) (by simp) rfl
  exact ⟨h.1, h.2 (by simp) (by simp) rfl⟩

/-! ## Claim C5 -/

/-- C5.  During prompting of a field, the `pre_prompt` hooks run over
the plugins in load order and stop at the first plugin returning the
skip signal (`True`): the invoked plugins are exactly an initial run of
non-skipping plugins followed by the first skipper.  When any plugin
returns the skip signal, the pass reports a skip, the field is never
handed to the prompter, and its key is absent from the resulting
metadata mapping. -/
theorem C5_pre_prompt_short_circuit
    (σ : Metadata → String → String) (oracle : String → String → Option Value)
    (plugins : List Plugin) (data : Option Metadata)
    (meta : List (String × MetaField)) (name : String) (field : MetaField)
    (p : Plugin)
    (hmem : (name, field) ∈ meta)
    (hnodup : (meta.map Prod.fst).Nodup)
    (hp : p ∈ plugins)
    (hskip : p.prePrompt name field = some true) :
    (prePromptPass plugins name field).1 = true
    ∧ (∃ l₁ q l₂, plugins = l₁ ++ q :: l₂
        ∧ (∀ r ∈ l₁, r.prePrompt name field ≠ some true)
        ∧ q.prePrompt name field = some true
        ∧ (prePromptPass plugins name field).2 = l₁ ++ [q])
    ∧ name ∉ (promptFields σ oracle plugins data meta).prompted
    ∧ dictLookup (promptFields σ oracle plugins data meta).metadata name
        = none := by
  have hflag : (prePromptPass plugins name field).1 = true :=
    (prePromptPass_skip_iff plugins name field).mpr ⟨p, hp, hskip⟩
  rcases prePromptPass_decomp hp hskip with ⟨l₁, q, l₂, hsp, hl₁, hq, hpass⟩
  refine ⟨hflag, ⟨l₁, q, l₂, hsp, hl₁, hq, by rw [hpass]⟩, ?_, ?_⟩
  all_goals
    rcases List.append_of_mem hmem with ⟨m₁, m₂, hsplit⟩
    subst hsplit
    rw [List.map_append, List.map_cons] at hnodup
    have hdisj := List.disjoint_of_nodup_append hnodup
    have hr := hnodup.of_append_right
    have h1 : ∀ e ∈ m₁, e.1 ≠ name := by
      intro e he heq
      have hm : e.1 ∈ m₁.map Prod.fst := List.mem_map_of_mem Prod.fst he
      exact hdisj hm (by simp [heq])
    have h2 : ∀ e ∈ m₂, e.1 ≠ name := by
      intro e he heq
      have hm : e.1 ∈ m₂.map Prod.fst := List.mem_map_of_mem Prod.fst he
      rw [heq] at hm
      exact (List.nodup_cons.mp hr).1 hm
    unfold promptFields
    rw [List.foldl_append, List.foldl_cons]
  · refine promptFold_prompted_ne σ oracle plugins data m₂ _ h2 ?_
    have hu := promptStep_skip σ oracle plugins data
      (List.foldl (promptStep σ oracle plugins data) {} m₁) (name, field) hflag
    rw [hu.2.1]
    exact promptFold_prompted_ne σ oracle plugins data m₁ {} h1 (by simp)
  · rw [promptFold_lookup_ne σ oracle plugins data m₂ _ h2]
    have hu := promptStep_skip σ oracle plugins data
      (List.foldl (promptStep σ oracle plugins data) {} m₁) (name, field) hflag
    rw [hu.1]
    rw [promptFold_lookup_ne σ oracle plugins data m₁ {} h1]
    rfl

/-- C5 witness: one skipping plugin and one field preset in data; the
pass stops at the skipper and the key is absent afterwards. -/
theorem C5_pre_prompt_short_circuit_witness :
    (prePromptPass [{ name := "SkipAll", prePrompt := fun _ _ => some true }]
        "k" (MetaField.str {})).1 = true
    ∧ dictLookup
        (promptFields (fun _ s => s) (fun _ d => some (.str d))
          [{ name := "SkipAll", prePrompt := fun _ _ => some true }]
          (some [("k", Value.str "v")])
          [("k", MetaField.str {})]).metadata "k" = none := by
  have h := C5_pre_prompt_short_circuit (fun _ s => s)
    (fun _ d => some (.str d))
    [{ name := "SkipAll", prePrompt := fun _ _ => some true }]
    (some [("k", Value.str "v")]) [("k", MetaField.str {})] "k"
    (MetaField.str {}) { name := "SkipAll", prePrompt := fun _ _ => some true }
    (by simp) (by simp) (by simp) rfl
  exact ⟨h.1, h.2.2.2⟩

/-! ## Claim C8

The scenario run: fields `project_name` (string, required) and
`version` (string, default `"0.1.0"`), preset data
`{"project_name": "demo"}`, no plugins.  The templating engine is the
identity on these template-free strings, and the terminal oracle
accepts the prefilled default (pressing Enter in a `questionary` text
prompt returns the prefilled default string). -/

/-- C8, counterexample to the claim as stated: the run produces the
stated metadata, but an interactive prompt *is* issued — for `version`,
which is absent from the preset data (`TexJam.prompt` hands every
non-preset field to `Prompter.prompt_meta_field`, which always calls
`questionary.prompt`). -/
theorem C8_counterexample :
    scenario1Run.metadata
        = [("project_name", Value.str "demo"), ("version", Value.str "0.1.0")]
    ∧ scenario1Run.prompted = ["version"]
    ∧ ["version"] ≠ ([] : List String) := by
  refine ⟨rfl, rfl, by simp⟩

/-- C8, amended.  The scenario yields metadata
`{"project_name": "demo", "version": "0.1.0"}` with no prompt for the
preset `project_name`; `version` is resolved through exactly one
interactive prompt, whose prefilled default `"0.1.0"` the user accepts;
the run completes without error. -/
theorem C8_scenario1_amended :
    scenario1Run.metadata
        = [("project_name", Value.str "demo"), ("version", Value.str "0.1.0")]
    ∧ scenario1Run.prompted = ["version"]
    ∧ "project_name" ∉ scenario1Run.prompted
    ∧ scenario1Run.err = none := by
  refine ⟨rfl, rfl, ?_, rfl⟩
  have h : scenario1Run.prompted = ["version"] := rfl
  rw [h]
  simp

/-! ## Claim C7 -/

/-- C7, counterexample to the claim as stated: the metadata mapping is
*not* written only by the orchestrator's prompt step.  The
`TexJamPlugin.metadata` property returns the executor's dict itself, so
a hook body can assign into it; the bundled `ExamplePlugin.initialize`
does exactly that (`self.metadata['example'] = True`), and after the
initialize stage of a render run over an empty mapping, the executor's
mapping holds an entry no prompt ever stored. -/
theorem C7_counterexample :
    runInitStage [examplePlugin] [] = [("example", Value.bool true)]
    ∧ ([("example", Value.bool true)] : Metadata) ≠ [] := by
  exact ⟨rfl, by simp⟩

/-- C7, amended.  A plugin *can* add or change entries of the metadata
mapping by direct mutation through its `metadata` capability — the hook
contract's return values are not its only influence.  Running the
`initialize` stage with the bundled example plugin stores
`example ↦ True` in the shared mapping, whatever the mapping held
before, and the orchestrator sees that entry in all later stages. -/
theorem C7_plugin_direct_mutation (md : Metadata) :
    dictLookup (runInitStage [examplePlugin] md) "example"
      = some (Value.bool true) := by
  show dictLookup (dictInsert md "example" (Value.bool true)) "example" = _
  exact dictLookup_dictInsert_self md "example" (Value.bool true)

/-! ## Claim C10 -/

theorem registerPlugins_go (classes : List Plugin) (acc : List Plugin) :
    classes.foldl
        (fun reg c => if startsWithUnderscore c.name then reg else reg ++ [c])
        acc
      = acc ++ classes.filter (fun c => !(startsWithUnderscore c.name)) := by
  induction classes generalizing acc with
  | nil => simp
  | cons c rest ih =>
    rw [List.foldl_cons]
    cases hc : startsWithUnderscore c.name with
    | true => simp [hc, ih]
    | false => simp [hc, ih]

theorem registerPlugins_eq_filter (classes : List Plugin) :
    registerPlugins classes
      = classes.filter (fun c => !(startsWithUnderscore c.name)) := by
  unfold registerPlugins
  simpa using registerPlugins_go classes []

theorem promptStep_preTrace_eq (σ : Metadata → String → String)
    (oracle : String → String → Option Value) (plugins : List Plugin)
    (data : Option Metadata) (st : PromptState) (nf : String × MetaField)
    (herr : ¬ st.err.isSome) :
    (promptStep σ oracle plugins data st nf).preTrace
      = st.preTrace
        ++ (prePromptPass plugins nf.1 nf.2).2.map (fun p => (p, nf.1)) := by
  rcases hpre : prePromptPass plugins nf.1 nf.2 with ⟨s, inv⟩
  simp only [promptStep, herr, if_false, hpre]
  cases s with
  | true => simp
  | false =>
    simp only [Bool.false_eq_true, if_false]
    cases hdat : (match data with
        | some d => dictLookup d nf.1
        | none => none : Option Value) with
    | some v =>
      simp only [hdat, storeValue]
      by_cases hint : (postPromptPass plugins nf.1 nf.2 v).1 <;> simp [hint]
    | none =>
      simp only [hdat]
      cases hpr : prompt_meta_field (σ st.metadata) oracle nf.1 nf.2 with
      | error e => simp [hpr]
      | ok v =>
        simp only [hpr, storeValue]
        by_cases hint : (postPromptPass plugins nf.1 nf.2 v).1 <;> simp [hint]

theorem promptStep_preTrace_mem {σ : Metadata → String → String}
    {oracle : String → String → Option Value} {plugins : List Plugin}
    {data : Option Metadata} {st : PromptState} {nf : String × MetaField}
    {e : Plugin × String}
    (he : e ∈ (promptStep σ oracle plugins data st nf).preTrace) :
    e ∈ st.preTrace ∨ e.1 ∈ plugins := by
  by_cases herr : st.err.isSome
  · rw [promptStep_frozen _ _ _ _ _ _ herr] at he
    exact Or.inl he
  · rw [promptStep_preTrace_eq σ oracle plugins data st nf herr] at he
    rcases List.mem_append.mp he with h | h
    · exact Or.inl h
    · rcases List.mem_map.mp h with ⟨p, hp, hpe⟩
      right
      rw [← hpe]
      exact prePromptPass_invoked_mem hp

theorem promptFold_preTrace_mem {σ : Metadata → String → String}
    {oracle : String → String → Option Value} {plugins : List Plugin}
    {data : Option Metadata} {meta : List (String × MetaField)}
    {st : PromptState} {e : Plugin × String}
    (he : e ∈ (meta.foldl (promptStep σ oracle plugins data) st).preTrace) :
    e ∈ st.preTrace ∨ e.1 ∈ plugins := by
  induction meta generalizing st with
  | nil => exact Or.inl he
  | cons nf rest ih =>
    rw [List.foldl_cons] at he
    rcases ih he with h | h
    · exact promptStep_preTrace_mem h
    · exact Or.inr h

/-- C10.  Plugin discovery registers exactly the subclasses whose class
name does not start with an underscore, in definition order
(`registerPlugins classes` is the order-preserving filter of the
definitions); an underscore-prefixed subclass is never in the registry
— hence never instantiated for a run, which loads exactly the registry
— and no `pre_prompt` invocation of a run over the loaded plugins ever
names it. -/
theorem C10_underscore_plugins_ignored (classes : List Plugin) :
    registerPlugins classes
        = classes.filter (fun c => !(startsWithUnderscore c.name))
    ∧ (∀ c ∈ classes, startsWithUnderscore c.name = true →
        c ∉ registerPlugins classes)
    ∧ (∀ (σ : Metadata → String → String)
        (oracle : String → String → Option Value) (data : Option Metadata)
        (meta : List (String × MetaField)) (c : Plugin)
        (e : Plugin × String), startsWithUnderscore c.name = true →
        e ∈ (promptFields σ oracle (registerPlugins classes)
              data meta).preTrace →
        e.1 ≠ c) := by
  refine ⟨registerPlugins_eq_filter classes, ?_, ?_⟩
  · intro c _ hus hmem
    rw [registerPlugins_eq_filter classes] at hmem
    have := List.of_mem_filter hmem
    rw [hus] at this
    simp at this
  · intro σ oracle data meta c e hus he
    rcases promptFold_preTrace_mem he with h | h
    · simp [PromptState.preTrace] at h
    · intro hec
      rw [registerPlugins_eq_filter classes] at h
      have := List.of_mem_filter h
      rw [hec, hus] at this
      simp at this

/-- C10 witness: the example module defines `ExamplePlugin` and
`_IgnoredPlugin`; discovery registers exactly the former. -/
theorem C10_underscore_plugins_ignored_witness :
    registerPlugins [examplePlugin, ignoredPlugin] = [examplePlugin]
    ∧ ignoredPlugin ∉ registerPlugins [examplePlugin, ignoredPlugin] := by
  constructor
  · rfl
  · exact (C10_underscore_plugins_ignored
      [examplePlugin, ignoredPlugin]).2.1 ignoredPlugin
      (List.mem_cons_of_mem _ (List.mem_cons_self _ _)) rfl

/-! ## Claim C9 -/

/-- C9.  For every `TempPath` object — source-backed or synthesized —
and after any sequence of property reads and assignments, if the
`is_dir` property evaluates to `True` then accessing the `content`
property raises (`ValueError('Directories do not have content.')`): a
directory entry never exposes content. -/
theorem C9_dir_never_exposes_content (t : TempPath) (ops : List TempPath.Op)
    (h : (TempPath.applyOps t ops).getIsDir.1 = .ok true) :
    (TempPath.applyOps t ops).getContent.1 = .error .dirHasNoContent := by
  set u := TempPath.applyOps t ops with hu
  rcases hd : u.getIsDir with ⟨r, u1⟩
  rw [hd] at h
  simp only at h
  subst h
  simp [TempPath.getContent, hd]

/-- C9 witness: a synthesized directory entry, after an assignment to
its `content` attribute and a `mode` read, still raises on `content`
access. -/
theorem C9_dir_never_exposes_content_witness :
    (TempPath.applyOps ⟨none, ["docs"], some true, none, none⟩
        [.writeContent (.text "x"), .readMode]).getIsDir.1 = .ok true
    ∧ (TempPath.applyOps ⟨none, ["docs"], some true, none, none⟩
        [.writeContent (.text "x"), .readMode]).getContent.1
      = .error .dirHasNoContent := by
  refine ⟨rfl, ?_⟩
  exact C9_dir_never_exposes_content ⟨none, ["docs"], some true, none, none⟩
    [.writeContent (.text "x"), .readMode] rfl

/-! ## Claim C3 -/

theorem contains_empty_iff (l : List String) :
    l.contains "" = true ↔ "" ∈ l := by
  simp [List.contains_eq_any_beq]

/-- C3.  In the tree walk, every component of an entry's source-relative
path is rendered through the templating engine, and an entry one of
whose rendered components is empty is skipped entirely: no `TempPath`
is produced for it (the walk itself raises nothing — `gatherTempPaths`
is total).  Since rendering is a function of the fixed metadata, every
descendant entry repeats the empty component and is likewise omitted
(`e` ranges over the skipped entry and all its descendants via the
initial-segment hypothesis, including `d = e` itself). -/
theorem C3_empty_segment_skips_subtree (σ : String → String)
    (entries : List RawRef) (e d : RawRef) (tp : TempPath)
    (hemp : "" ∈ e.parts.map σ)
    (hdesc : e.parts <+: d.parts)
    (htp : tp ∈ gatherTempPaths σ entries) :
    tp.raw ≠ some d := by
  intro hraw
  rcases List.mem_filterMap.mp htp with ⟨x, hx, hfx⟩
  rw [show (let parts := List.map σ x.parts;
      if parts.contains "" = true then none
      else
        match TempPath.init (some x) parts none none none with
        | Except.ok tp => some tp
        | Except.error _ => none)
    = (if (List.map σ x.parts).contains "" = true then none
      else
        match TempPath.init (some x) (List.map σ x.parts) none none none with
        | Except.ok tp => some tp
        | Except.error _ => none) from rfl] at hfx
  split at hfx
  · exact Option.noConfusion hfx
  · next hcond =>
    simp only [TempPath.init] at hfx
    obtain rfl := Option.some.inj hfx
    have hxd : x = d := Option.some.inj hraw
    subst hxd
    have hmem : "" ∈ x.parts.map σ := ((hdesc.map σ).sublist).mem hemp
    exact hcond ((contains_empty_iff _).mpr hmem)

/-- C3 witness: a source tree with a directory whose single component
renders empty, a file below it, and an unrelated file; the walk
produces exactly the unrelated file's entry, and the theorem applies to
the skipped directory and its descendant. -/
theorem C3_empty_segment_skips_subtree_witness :
    gatherTempPaths (fun s => if s = "((maybe))" then "" else s)
        [⟨["((maybe))"], true, true, false, "", [], 0⟩,
         ⟨["((maybe))", "x.txt"], true, false, false, "x", [], 0⟩,
         ⟨["keep.txt"], true, false, false, "k", [], 0⟩]
      = [⟨some ⟨["keep.txt"], true, false, false, "k", [], 0⟩,
          ["keep.txt"], none, none, none⟩]
    ∧ (⟨some ⟨["keep.txt"], true, false, false, "k", [], 0⟩,
          ["keep.txt"], none, none, none⟩ : TempPath).raw
        ≠ some ⟨["((maybe))", "x.txt"], true, false, false, "x", [], 0⟩ := by
  refine ⟨rfl, ?_⟩
  refine C3_empty_segment_skips_subtree
    (fun s => if s = "((maybe))" then "" else s)
    [⟨["((maybe))"], true, true, false, "", [], 0⟩,
     ⟨["((maybe))", "x.txt"], true, false, false, "x", [], 0⟩,
     ⟨["keep.txt"], true, false, false, "k", [], 0⟩]
    ⟨["((maybe))"], true, true, false, "", [], 0⟩
    ⟨["((maybe))", "x.txt"], true, false, false, "x", [], 0⟩
    _ (by simp) ⟨["x.txt"], rfl⟩ (by decide)

/-! ## Claim C4 -/

/-- C4, counterexample to the claim as stated: a structured record
declaring both `required: true` and a `default` is accepted —
`parse_meta_field` returns a complete `MetaStr`, raising nothing.  (No
`ConflictingConstraint` check exists anywhere in the live
`config/meta.py` construction path; only the superseded legacy
`config.py` module asserted the conflict.) -/
theorem C4_counterexample :
    parse_meta_field (.dict [("type", .str "str"), ("required", .bool true),
        ("default", .str "x")])
      = .ok (.str { required := true, default := "x" }) := rfl

/-- C4, amended.  `MetaField` construction from a structured record
declaring both `required: true` and a `default` always succeeds,
returning the field with `required = true` and the given default — the
conflict is silently accepted, for every default string. -/
theorem C4_required_default_accepted (s : String) :
    parse_meta_field (.dict [("type", .str "str"), ("required", .bool true),
        ("default", .str s)])
      = .ok (.str { required := true, default := s }) := rfl

/-! ## Claim C1 -/

theorem sortPaths_sorted (ps : List TempPath) :
    List.Sorted tpLe (sortPaths ps) := by
  haveI : IsTotal TempPath tpLe := ⟨fun a b => pathLe_total a.rendered b.rendered⟩
  haveI : IsTrans TempPath tpLe := ⟨fun _ _ _ hab hbc => pathLe_trans hab hbc⟩
  exact List.sorted_insertionSort tpLe ps

/-- C1.  In the materialization order of the final `TempPath` list (the
list sorted by rendered path — the order the creation loop follows),
any entry whose rendered path is a strict component-wise initial
segment of another entry's rendered path comes strictly first; in
particular every directory entry is created before any entry below
it. -/
theorem C1_order_parent_before_child (ps : List TempPath) (A B : TempPath)
    (i j : Fin (sortPaths ps).length)
    (hA : (sortPaths ps).get i = A) (hB : (sortPaths ps).get j = B)
    (hpre : A.rendered <+: B.rendered) (hne : A.rendered ≠ B.rendered) :
    (i : ℕ) < (j : ℕ) := by
  rcases lt_trichotomy (i : ℕ) (j : ℕ) with h | h | h
  · exact h
  · exfalso
    have : i = j := Fin.ext h
    subst this
    rw [hA] at hB
    exact hne (by rw [hB])
  · exfalso
    have hji : j < i := h
    have hrel : tpLe ((sortPaths ps).get j) ((sortPaths ps).get i) :=
      (sortPaths_sorted ps).rel_get_of_lt hji
    rw [hA, hB] at hrel
    have hfalse : pathLe B.rendered A.rendered = false :=
      pathLe_eq_false_of_strict_initial hpre hne
    rw [tpLe] at hrel
    rw [hrel] at hfalse
    exact Bool.noConfusion hfalse

/-- C1 witness: a directory `a` and a file `a/b` given in reverse
order; sorting places the directory at index 0, the descendant at
index 1. -/
theorem C1_order_parent_before_child_witness :
    sortPaths [⟨none, ["a", "b"], some false, none, some (.text "")⟩,
        ⟨none, ["a"], some true, none, none⟩]
      = [⟨none, ["a"], some true, none, none⟩,
         ⟨none, ["a", "b"], some false, none, some (.text "")⟩]
    ∧ (0 : ℕ) < (1 : ℕ) := by
  refine ⟨rfl, ?_⟩
  exact C1_order_parent_before_child
    [⟨none, ["a", "b"], some false, none, some (.text "")⟩,
     ⟨none, ["a"], some true, none, none⟩]
    ⟨none, ["a"], some true, none, none⟩
    ⟨none, ["a", "b"], some false, none, some (.text "")⟩
    ⟨0, by decide⟩ ⟨1, by decide⟩ rfl rfl ⟨["b"], rfl⟩ (by decide)

/-! ## Claim C6: file-system lemmas -/

theorem fsExists_append_left {fs : FS} {x : List String}
    (h : fsExists fs x = true) (l : FS) : fsExists (fs ++ l) x = true := by
  unfold fsExists at h ⊢
  rw [List.any_append, h, Bool.true_or]

theorem fsExists_map_replace {fs : FS} {x : List String} (q : List String)
    (c : TPContent) (h : fsExists fs x = true) :
    fsExists (fs.map (fun e => if e.1 = q then (q, FSEntry.file c) else e)) x
      = true := by
  unfold fsExists at h ⊢
  rw [List.any_eq_true] at h ⊢
  rcases h with ⟨e, he, hex⟩
  have hex' : e.1 = x := of_decide_eq_true hex
  refine ⟨if e.1 = q then (q, FSEntry.file c) else e,
    List.mem_map_of_mem _ he, ?_⟩
  by_cases heq : e.1 = q
  · rw [if_pos heq]
    rw [heq] at hex'
    exact decide_eq_true hex'
  · rw [if_neg heq]
    exact hex

theorem fsExists_fsWrite {fs : FS} {x : List String} (q : List String)
    (c : TPContent) (h : fsExists fs x = true) :
    fsExists (fsWrite fs q c) x = true := by
  unfold fsWrite
  by_cases hq : fsExists fs q = true
  · simp only [hq, if_true]
    exact fsExists_map_replace q c h
  · simp only [hq, if_false]
    exact fsExists_append_left h _

theorem fsExists_fsMkdirParents {fs : FS} {x : List String}
    (p : List String) (h : fsExists fs x = true) :
    fsExists (fsMkdirParents fs p) x = true := by
  unfold fsMkdirParents
  generalize initSegs p = segs
  induction segs generalizing fs with
  | nil => exact h
  | cons q rest ih =>
    rw [List.foldl_cons]
    by_cases hq : fsExists fs q = true
    · simp only [hq, if_true]
      exact ih h
    · simp only [hq, if_false]
      exact ih (fsExists_append_left h _)

theorem isPrefixOf_eq_false_of_not {d q : List String} (h : ¬ d <+: q) :
    d.isPrefixOf q = false := by
  cases hb : d.isPrefixOf q with
  | false => rfl
  | true => exact absurd (List.isPrefixOf_iff_prefix.mp hb) h

theorem fsAtOrUnder_append_not_under {fs : FS} {d q : List String}
    (ent : FSEntry) (h : ¬ d <+: q) :
    fsAtOrUnder (fs ++ [(q, ent)]) d = fsAtOrUnder fs d := by
  unfold fsAtOrUnder
  rw [List.filter_append]
  have hq : List.filter (fun e => d.isPrefixOf e.1) [(q, ent)] = [] := by
    rw [List.filter_cons]
    simp [isPrefixOf_eq_false_of_not h]
  rw [hq, List.append_nil]

theorem fsAtOrUnder_map_replace_not_under {fs : FS} {d q : List String}
    (c : TPContent) (h : ¬ d <+: q) :
    fsAtOrUnder
        (fs.map (fun e => if e.1 = q then (q, FSEntry.file c) else e)) d
      = fsAtOrUnder fs d := by
  unfold fsAtOrUnder
  induction fs with
  | nil => rfl
  | cons e rest ih =>
    simp only [List.map_cons, List.filter_cons]
    by_cases heq : e.1 = q
    · rw [if_pos heq]
      have h1 : (d.isPrefixOf (q, FSEntry.file c).1) = false :=
        isPrefixOf_eq_false_of_not h
    
      have h2 : (d.isPrefixOf e.1) = false := by
        rw [heq]
        exact isPrefixOf_eq_false_of_not h
      rw [h1, h2]
      exact ih
    · rw [if_neg heq]
      cases hp : d.isPrefixOf e.1 with
      | true => rw [ih]
      | false => exact ih

theorem fsAtOrUnder_fsWrite_not_under {fs : FS} {d q : List String}
    (c : TPContent) (h : ¬ d <+: q) :
    fsAtOrUnder (fsWrite fs q c) d = fsAtOrUnder fs d := by
  unfold fsWrite
  by_cases hq : fsExists fs q = true
  · rw [if_pos hq]
    exact fsAtOrUnder_map_replace_not_under c h
  · rw [if_neg hq]
    exact fsAtOrUnder_append_not_under _ h

theorem initSegs_pre {p q : List String} (h : q ∈ initSegs p) : q <+: p := by
  unfold initSegs at h
  rcases List.mem_map.mp h with ⟨i, _, hq⟩
  rw [← hq]
  exact List.take_prefix _ _

theorem fsAtOrUnder_fsMkdirParents_not_under {fs : FS} {d p : List String}
    (h : ∀ q ∈ initSegs p, ¬ d <+: q) :
    fsAtOrUnder (fsMkdirParents fs p) d = fsAtOrUnder fs d := by
  unfold fsMkdirParents
  have hgen : ∀ (segs : List (List String)) (fs : FS),
      (∀ q ∈ segs, ¬ d <+: q) →
      fsAtOrUnder
          (segs.foldl (fun acc q =>
            if fsExists acc q then acc else acc ++ [(q, .dir)]) fs) d
        = fsAtOrUnder fs d := by
    intro segs
    induction segs with
    | nil => intro fs _; rfl
    | cons q rest ih =>
      intro fs hall
      rw [List.foldl_cons]
      by_cases hq : fsExists fs q = true
      · rw [if_pos hq]
        exact ih fs (fun r hr => hall r (List.mem_cons_of_mem q hr))
      · rw [if_neg hq]
        rw [ih _ (fun r hr => hall r (List.mem_cons_of_mem q hr))]
        exact fsAtOrUnder_append_not_under _
          (hall q (List.mem_cons_self q rest))
  exact hgen (initSegs p) fs h

theorem not_under_of_lt {p d q : List String} (hle : pathLe p d = true)
    (hne : p ≠ d) (hq : q <+: p) : ¬ d <+: q := by
  intro hdq
  have hdp : d <+: p := hdq.trans hq
  exact hne (pathLe_antisymm hle (pathLe_of_initial hdp))

theorem materializeStep_dir_conflict (σ : String → String)
    (plugins : List Plugin) (fs : FS) (tp : TempPath)
    (hdir : tp.getIsDir.1 = .ok true)
    (hex : fsExists fs tp.rendered = true) :
    materializeStep σ plugins fs tp = (fs, some (.pathAlreadyExists tp)) := by
  rcases hd : tp.getIsDir with ⟨r, u⟩
  rw [hd] at hdir
  have hr : r = .ok true := hdir
  subst hr
  unfold materializeStep
  rw [hd]
  simp [hex]

theorem materializeStep_slice_of_lt (σ : String → String)
    (plugins : List Plugin) (fs : FS) (tp : TempPath) {d : List String}
    (hle : pathLe tp.rendered d = true) (hne : tp.rendered ≠ d) :
    fsAtOrUnder (materializeStep σ plugins fs tp).1 d = fsAtOrUnder fs d
    ∧ (fsExists fs d = true →
        fsExists (materializeStep σ plugins fs tp).1 d = true) := by
  have hnu : ∀ q, q <+: tp.rendered → ¬ d <+: q :=
    fun q hq => not_under_of_lt hle hne hq
  unfold materializeStep
  rcases hd : tp.getIsDir with ⟨r, u⟩
  cases r with
  | error e =>
    constructor
    · simp
    · intro h; simpa using h
  | ok b =>
    cases b with
    | true =>
      by_cases hex : fsExists fs tp.rendered = true
      · constructor
        · simp [hex]
        · intro h; simpa [hex] using h
      · constructor
        · simp only [hex, Bool.false_eq_true, if_false]
          exact fsAtOrUnder_fsMkdirParents_not_under
            (fun q hq => hnu q (initSegs_pre hq))
        · intro h
          simp only [hex, Bool.false_eq_true, if_false]
          exact fsExists_fsMkdirParents _ h
    | false =>
      by_cases hpar : parentExists fs tp.rendered = true
      · rcases hc : u.getContent with ⟨rc, u2⟩
        cases rc with
        | error e =>
          constructor
          · simp [hpar, hc]
          · intro h; simpa [hpar, hc] using h
        | ok c =>
          cases c with
          | text s =>
            constructor
            · simp only [hpar, not_true, if_false, hc]
              exact fsAtOrUnder_fsWrite_not_under _
                (hnu tp.rendered (List.prefix_refl _))
            · intro h
              simp only [hpar, not_true, if_false, hc]
              exact fsExists_fsWrite _ _ h
          | bin b =>
            constructor
            · simp only [hpar, not_true, if_false, hc]
              exact fsAtOrUnder_fsWrite_not_under _
                (hnu tp.rendered (List.prefix_refl _))
            · intro h
              simp only [hpar, not_true, if_false, hc]
              exact fsExists_fsWrite _ _ h
      · constructor
        · simp [hpar]
        · intro h; simpa [hpar] using h

theorem materializeAll_append_err (σ : String → String)
    (plugins : List Plugin) {fs fs1 : FS} {l₁ : List TempPath}
    (l₂ : List TempPath) {e : RenderErr}
    (h : materializeAll σ plugins fs l₁ = (fs1, some e)) :
    materializeAll σ plugins fs (l₁ ++ l₂) = (fs1, some e) := by
  induction l₁ generalizing fs with
  | nil =>
    rw [materializeAll] at h
    exact absurd (congrArg Prod.snd h) (by simp)
  | cons tp rest ih =>
    rw [materializeAll] at h
    rw [show (tp :: rest) ++ l₂ = tp :: (rest ++ l₂) from rfl, materializeAll]
    rcases hs : materializeStep σ plugins fs tp with ⟨fs2, err2⟩
    rw [hs] at h
    cases err2 with
    | none => exact ih h
    | some e2 => exact h

theorem materializeAll_append_ok (σ : String → String)
    (plugins : List Plugin) {fs fs1 : FS} {l₁ : List TempPath}
    (l₂ : List TempPath)
    (h : materializeAll σ plugins fs l₁ = (fs1, none)) :
    materializeAll σ plugins fs (l₁ ++ l₂)
      = materializeAll σ plugins fs1 l₂ := by
  induction l₁ generalizing fs with
  | nil =>
    rw [materializeAll] at h
    rw [List.nil_append, show fs = fs1 from congrArg Prod.fst h]
  | cons tp rest ih =>
    rw [materializeAll] at h
    rw [show (tp :: rest) ++ l₂ = tp :: (rest ++ l₂) from rfl, materializeAll]
    rcases hs : materializeStep σ plugins fs tp with ⟨fs2, err2⟩
    rw [hs] at h
    cases err2 with
    | none => exact ih h
    | some e2 => exact absurd (congrArg Prod.snd h) (by simp)

theorem materializeAll_lt_slice (σ : String → String)
    (plugins : List Plugin) {d : List String} {l : List TempPath} {fs : FS}
    (hall : ∀ tp ∈ l, pathLe tp.rendered d = true ∧ tp.rendered ≠ d) :
    fsAtOrUnder (materializeAll σ plugins fs l).1 d = fsAtOrUnder fs d
    ∧ (fsExists fs d = true →
        fsExists (materializeAll σ plugins fs l).1 d = true) := by
  induction l generalizing fs with
  | nil => exact ⟨rfl, fun h => h⟩
  | cons tp rest ih =>
    rw [materializeAll]
    rcases hs : materializeStep σ plugins fs tp with ⟨fs2, err2⟩
    have hstep := materializeStep_slice_of_lt σ plugins fs tp
      (hall tp (List.mem_cons_self tp rest)).1
      (hall tp (List.mem_cons_self tp rest)).2
    rw [hs] at hstep
    cases err2 with
    | none =>
      have ih2 := @ih fs2 (fun x hx => hall x (List.mem_cons_of_mem tp hx))
      exact ⟨ih2.1.trans hstep.1, fun h => ih2.2 (hstep.2 h)⟩
    | some e2 => exact hstep

theorem pathLtB_true_elim {a b : List String} (h : pathLtB a b = true) :
    pathLe a b = true ∧ a ≠ b := by
  unfold pathLtB at h
  rcases Bool.and_eq_true_iff.mp h with ⟨h1, h2⟩
  refine ⟨h1, ?_⟩
  intro heq
  rw [heq] at h2
  simp at h2

theorem pathLtB_false_elim {a b : List String} (h : pathLtB a b = false)
    (hle : pathLe a b = true) : a = b := by
  unfold pathLtB at h
  rw [hle, Bool.true_and] at h
  cases hd : decide (a = b) with
  | true => exact of_decide_eq_true hd
  | false =>
    rw [hd] at h
    simp at h

theorem dropWhile_head_false {α : Type} {p : α → Bool} {l : List α}
    {x : α} {xs : List α} (h : l.dropWhile p = x :: xs) : p x = false := by
  have hh := List.head?_dropWhile_not p l
  rw [h] at hh
  simpa using hh

/-- C6.  (i) Creating a directory `TempPath` whose target path already
exists raises `PathAlreadyExists` carrying that entry, and the failing
step leaves the file-system contents exactly as they were.  (ii) For a
run of the creation loop over the sorted final list: if the output
directory already contains an entry at `d` and the list contains a
directory entry rendered at `d`, the run fails (the pre-existing entry
makes the loop raise before finishing), and everything at or below `d`
— the pre-existing directory and its contents — is exactly as it was
before the run. -/
theorem C6_existing_dir_conflict (σ : String → String)
    (plugins : List Plugin) :
    (∀ (fs : FS) (tp : TempPath), tp.getIsDir.1 = .ok true →
        fsExists fs tp.rendered = true →
        materializeStep σ plugins fs tp = (fs, some (.pathAlreadyExists tp)))
    ∧ (∀ (fs0 : FS) (ps : List TempPath) (d : List String),
        fsExists fs0 d = true →
        (∃ tp ∈ ps, tp.getIsDir.1 = .ok true ∧ tp.rendered = d) →
        (∀ tp ∈ ps, tp.rendered = d → tp.getIsDir.1 = .ok true) →
        (materializeAll σ plugins fs0 (sortPaths ps)).2.isSome = true
        ∧ fsAtOrUnder (materializeAll σ plugins fs0 (sortPaths ps)).1 d
            = fsAtOrUnder fs0 d) := by
  constructor
  · exact fun fs tp hdir hex => materializeStep_dir_conflict σ plugins fs tp hdir hex
  · intro fs0 ps d hex hsome hall
    rcases hsome with ⟨tps, htpsmem, _, htpseq⟩
    have htpsout : tps ∈ sortPaths ps :=
      (List.mem_insertionSort tpLe).mpr htpsmem
    have hw_tps : pathLtB tps.rendered d = false := by
      rw [htpseq]
      unfold pathLtB
      simp [pathLe_refl]
    have hsplit :
        (sortPaths ps).takeWhile (fun tp => pathLtB tp.rendered d)
          ++ (sortPaths ps).dropWhile (fun tp => pathLtB tp.rendered d)
        = sortPaths ps :=
      List.takeWhile_append_dropWhile _ _
    have htps_in_drop :
        tps ∈ (sortPaths ps).dropWhile (fun tp => pathLtB tp.rendered d) := by
      rcases List.mem_append.mp (by rw [hsplit]; exact htpsout) with h | h
      · have := List.mem_takeWhile_imp h
        rw [hw_tps] at this
        exact absurd this (by simp)
      · exact h
    have hl₁ : ∀ tp ∈ (sortPaths ps).takeWhile
        (fun tp => pathLtB tp.rendered d),
        pathLe tp.rendered d = true ∧ tp.rendered ≠ d := by
      intro tp htp
      have hx := List.mem_takeWhile_imp htp
      exact pathLtB_true_elim hx
    cases hdrop : (sortPaths ps).dropWhile (fun tp => pathLtB tp.rendered d) with
    | nil =>
      rw [hdrop] at htps_in_drop
      simp at htps_in_drop
    | cons h₂ rest =>
      have hwh₂0 := dropWhile_head_false hdrop
      have hwh₂ : pathLtB h₂.rendered d = false := hwh₂0
      have hsorted_drop : List.Sorted tpLe (h₂ :: rest) := by
        rw [← hdrop]
        exact List.Pairwise.sublist (List.dropWhile_sublist _)
          (sortPaths_sorted ps)
      have hle2 : pathLe h₂.rendered d = true := by
        rw [hdrop] at htps_in_drop
        rcases List.mem_cons.mp htps_in_drop with h | h
        · rw [← h, htpseq]
          exact pathLe_refl d
        · have := List.rel_of_sorted_cons hsorted_drop tps h
          rw [tpLe, htpseq] at this
          exact this
      have hd2 : h₂.rendered = d := pathLtB_false_elim hwh₂ hle2
      have hmem₂ : h₂ ∈ ps := by
        have : h₂ ∈ (sortPaths ps).dropWhile (fun tp => pathLtB tp.rendered d) := by
          rw [hdrop]
          exact List.mem_cons_self _ _
        exact (List.mem_insertionSort tpLe).mp
          ((List.dropWhile_sublist _).mem this)
      have hdir₂ : h₂.getIsDir.1 = .ok true := hall h₂ hmem₂ hd2
      have hout_eq : sortPaths ps
          = (sortPaths ps).takeWhile (fun tp => pathLtB tp.rendered d)
            ++ h₂ :: rest := by
        rw [← hdrop, hsplit]
      rcases hfold : materializeAll σ plugins fs0
          ((sortPaths ps).takeWhile (fun tp => pathLtB tp.rendered d)) with
        ⟨fs1, err1⟩
      have hslice := @materializeAll_lt_slice σ plugins d
        ((sortPaths ps).takeWhile (fun tp => pathLtB tp.rendered d)) fs0 hl₁
      rw [hfold] at hslice
      cases err1 with
      | some e1 =>
        have hres : materializeAll σ plugins fs0 (sortPaths ps)
            = (fs1, some e1) := by
          rw [hout_eq]
          exact materializeAll_append_err σ plugins _ hfold
        rw [hres]
        exact ⟨rfl, hslice.1⟩
      | none =>
        have hex1 : fsExists fs1 d = true := hslice.2 hex
        have hstep : materializeStep σ plugins fs1 h₂
            = (fs1, some (.pathAlreadyExists h₂)) :=
          materializeStep_dir_conflict σ plugins fs1 h₂ hdir₂
            (by rw [hd2]; exact hex1)
        have hres : materializeAll σ plugins fs0 (sortPaths ps)
            = (fs1, some (.pathAlreadyExists h₂)) := by
          rw [hout_eq, materializeAll_append_ok σ plugins _ hfold,
            materializeAll, hstep]
        rw [hres]
        exact ⟨rfl, hslice.1⟩

/-- C6 witness: an output directory already holding a top-level `proj`
directory, a walk list with the `proj` directory entry and a file below
it; the run fails with `PathAlreadyExists` at the `proj` entry and the
pre-existing directory slice is untouched. -/
theorem C6_existing_dir_conflict_witness :
    materializeAll (fun s => s) [] [(["proj"], .dir)]
        (sortPaths [⟨none, ["proj", "a.txt"], some false, none,
            some (.text "hi")⟩,
          ⟨none, ["proj"], some true, none, none⟩])
      = ([(["proj"], .dir)],
          some (.pathAlreadyExists ⟨none, ["proj"], some true, none, none⟩))
    ∧ (materializeAll (fun s => s) [] [(["proj"], .dir)]
        (sortPaths [⟨none, ["proj", "a.txt"], some false, none,
            some (.text "hi")⟩,
          ⟨none, ["proj"], some true, none, none⟩])).2.isSome = true
    ∧ fsAtOrUnder
        (materializeAll (fun s => s) [] [(["proj"], .dir)]
          (sortPaths [⟨none, ["proj", "a.txt"], some false, none,
              some (.text "hi")⟩,
            ⟨none, ["proj"], some true, none, none⟩])).1 ["proj"]
      = fsAtOrUnder [(["proj"], .dir)] ["proj"] := by
  refine ⟨rfl, ?_⟩
  exact (C6_existing_dir_conflict (fun s => s) []).2
    [(["proj"], .dir)]
    [⟨none, ["proj", "a.txt"], some false, none, some (.text "hi")⟩,
     ⟨none, ["proj"], some true, none, none⟩]
    ["proj"] rfl
    ⟨⟨none, ["proj"], some true, none, none⟩,
      List.mem_cons_of_mem _ (List.mem_cons_self _ _), rfl, rfl⟩
    (by
      intro tp htp heq
      rcases List.mem_cons.mp htp with h | h
      · rw [h] at heq
        simp at heq
      · rcases List.mem_cons.mp h with h2 | h2
        · rw [h2]
          rfl
        · simp at h2)

end TexJam
